import Mathlib

/-!
# Verification of the elmajs level codec (`src/lev.js`)

Shallow embedding of the Elasto Mania level codec from `src/lev.js`:

* the Top10 stream cipher `cryptTop10` (byte-level, JS exact-integer
  semantics: JS numbers are exact on these integer ranges, `%` is the
  truncating remainder, `& 0xFFFF` / `& 0x8000` / `& 0xFF` extract low bits
  of the 32-bit reinterpretation);
* the score-table half serializer (`_top10ToBuffer`'s inner `parse`) and
  parser `_parseTop10` (byte-level, buffers as `List Nat` of bytes);
* the level decoder `_parseFile` and encoder `_update` over a scalar-cell
  view of the byte buffer (each fixed-width numeric slot, fixed-width
  string region, and the 688-byte crypted block is one cell).  IEEE
  doubles are modelled as exact rationals; the count-field arithmetic was
  checked to agree with IEEE semantics on the relevant inputs;
* the integrity checksum deriver `_calculateIntegrity`, with the three
  `Math.random` draws passed in as explicit parameters.

Node `Buffer` reads past the end of a buffer throw a `RangeError`, which
rejects the decode promise; in the cell model that condition is the
`DecodeError.unexpectedEndOfData` outcome.  `trimString` / `nullpadString`
and the two marker constants live in `util.js` / `const.js`, which are not
part of the sources; they are modelled from the spec where indicated.
-/

namespace Elma

/-! ## Top10 stream cipher (`Level.cryptTop10`, lev.js lines 244-258) -/

/-- One round of the key-state update in `cryptTop10` (lev.js 252-254),
with JS exact-integer arithmetic: `ebp10 += (ebp8 % 0xD3D) * 0xD3D` is an
exact (non-wrapping) addition with truncating remainder, and
`ebp8 = (t & 0xFFFF) - 2 * (t & 0x8000)` for `t = ebp10 * 0x1F + 0xD3D`
extracts the low 16 bits of `t` (equal to `t.emod 65536` for any integer
whose 32-bit reinterpretation JS takes) and reinterprets them as signed. -/
def cryptStep (e8 e10 : Int) : Int × Int :=
  let e10' := e10 + (Int.tmod e8 0xD3D) * 0xD3D
  let t := e10' * 0x1F + 0xD3D
  let low := t % 0x10000
  (low - 2 * (0x8000 * (low / 0x8000)), e10')

/-- The crypt loop body (lev.js 249-255): each byte is XORed with
`ebp8 & 0xFF` (the low 8 bits of the current key), then the key state
steps.  The source loops `i` over `0..688` on a 688-byte buffer; here the
recursion follows the byte list, so on length-688 inputs it is the loop. -/
def cryptBytes (e8 e10 : Int) : List Nat → List Nat
  | [] => []
  | b :: bs =>
    (b ^^^ (e8 % 0x100).toNat) :: cryptBytes (cryptStep e8 e10).1 (cryptStep e8 e10).2 bs

/-- `Level.cryptTop10` (lev.js 244-258): copy the buffer and XOR it with
the rolling key stream seeded with `ebp8 = 0x15`, `ebp10 = 0x2637`. -/
def cryptTop10 (buffer : List Nat) : List Nat :=
  cryptBytes 0x15 0x2637 buffer

/-- Modelled from the spec (section 4.2): signed 32-bit wraparound. -/
def wrap32 (x : Int) : Int :=
  (x + 0x80000000) % 0x100000000 - 0x80000000

/-- Modelled from the spec (section 4.2): one round of the key recurrence
as the spec words it — `key2 = key2 + (key1 mod 0xD3D) * 0xD3D` under
truncating arithmetic consistent with 32-bit signed wraparound, then
`key1 = key2 * 0x1F + 0xD3D` masked to 16 bits and reinterpreted as a
signed 16-bit value (values at or above 0x8000 drop by 0x10000). -/
def specKeyStep (k1 k2 : Int) : Int × Int :=
  let k2' := wrap32 (k2 + (Int.tmod k1 0xD3D) * 0xD3D)
  let t := k2' * 0x1F + 0xD3D
  let low := t % 0x10000
  (if 0x8000 ≤ low then low - 0x10000 else low, k2')

/-- Modelled from the spec (section 4.2): the cipher as the spec states
it, XORing each input byte with the low 8 bits of `key1`. -/
def specCryptBytes (k1 k2 : Int) : List Nat → List Nat
  | [] => []
  | b :: bs =>
    (b ^^^ (k1 % 0x100).toNat) ::
      specCryptBytes (specKeyStep k1 k2).1 (specKeyStep k1 k2).2 bs

/-- Modelled from the spec (section 4.2): the full spec-side cipher with
the seeds `key1 = 0x15`, `key2 = 0x2637`. -/
def specCryptTop10 (buffer : List Nat) : List Nat :=
  specCryptBytes 0x15 0x2637 buffer

/-! ## Byte-buffer primitives and the fixed-width string codec -/

/-- Modelled from the spec (section 2): `trimString` from `util.js` (not
under `src/`) — reading a fixed-width region keeps the bytes before the
first null byte. -/
def trimString (bs : List Nat) : List Nat :=
  bs.takeWhile (fun b => b != 0)

/-- Modelled from the spec (section 2): `nullpadString` from `util.js`
(not under `src/`) — pad with null bytes to exactly `w` bytes, truncating
anything longer. -/
def nullpadString (bs : List Nat) (w : Nat) : List Nat :=
  bs.take w ++ List.replicate (w - (bs.take w).length) 0

/-- `Buffer` write of the byte string `bs` at offset `off` (in-range
writes only, which is how the source uses it on its `Buffer.alloc`ed
buffers). -/
def writeBytes (buf : List Nat) (off : Nat) (bs : List Nat) : List Nat :=
  buf.take off ++ bs ++ buf.drop (off + bs.length)

/-- `buffer.slice(off, off + len)` — Node buffer slices clamp at the end
of the buffer. -/
def slice (buf : List Nat) (off len : Nat) : List Nat :=
  (buf.drop off).take len

/-- The four little-endian bytes written by `buffer.writeUInt32LE v`
(whose argument the caller keeps in `[0, 2^32)`; Node asserts this). -/
def le32 (v : Nat) : List Nat :=
  [v % 0x100, v / 0x100 % 0x100, v / 0x10000 % 0x100, v / 0x1000000 % 0x100]

/-- `buffer.readUInt32LE` on the four bytes at the front of `bs`. -/
def readUInt32LE (bs : List Nat) : Nat :=
  bs.getD 0 0 + 0x100 * bs.getD 1 0 + 0x10000 * bs.getD 2 0 + 0x1000000 * bs.getD 3 0

/-- `buffer.readInt32LE` on the four bytes at the front of `bs`: the
unsigned value reinterpreted as a signed 32-bit integer. -/
def readInt32LE (bs : List Nat) : Int :=
  let u := readUInt32LE bs
  if u < 0x80000000 then (u : Int) else (u : Int) - 0x100000000

/-- Reinterpretation of an unsigned 32-bit value as signed, i.e. what
reading back four little-endian bytes with `readInt32LE` yields. -/
def asInt32 (v : Nat) : Int :=
  if v < 0x80000000 then (v : Int) else (v : Int) - 0x100000000

/-! ## Score tables (`_parseTop10` lev.js 266-283, `_top10ToBuffer` 482-508) -/

/-- One score entry as built by `_parseTop10`: `{time, name1, name2}`. -/
structure TimeEntry where
  time : Int
  name1 : List Nat
  name2 : List Nat
deriving DecidableEq

/-- The two top-10 lists of a level (`this.top10`). -/
structure Top10 where
  single : List TimeEntry
  multi : List TimeEntry
deriving DecidableEq

/-- Stable insertion step: place `e` before the first element whose time
is at least `e.time`. -/
def insertByTime (e : TimeEntry) : List TimeEntry → List TimeEntry
  | [] => [e]
  | x :: xs => if e.time ≤ x.time then e :: x :: xs else x :: insertByTime e xs

/-- The effect of `self.top10[list].sort((a, b) => ...)` (lev.js
486-490): the comparator orders ascending by `time`, and ECMAScript
`Array.prototype.sort` is stable, so the in-place result is the stable
ascending-by-time permutation, which this insertion sort computes. -/
def sortByTime : List TimeEntry → List TimeEntry
  | [] => []
  | x :: xs => insertByTime x (sortByTime xs)

/-- The write loop of `_top10ToBuffer`'s inner `parse` (lev.js 494-500):
iterate over the whole (sorted) list, but write only slots `i < 10`:
`time` as uint32 at `4 + 4*i`, the two null-padded 15-byte names at
`44 + 15*i` and `194 + 15*i`. -/
def writeTop10Entries (buf : List Nat) (i : Nat) : List TimeEntry → List Nat
  | [] => buf
  | e :: es =>
    if i < 10 then
      writeTop10Entries
        (writeBytes
          (writeBytes
            (writeBytes buf (4 + 4 * i) (le32 (e.time % 0x100000000).toNat))
            (44 + 15 * i) (nullpadString e.name1 15))
          (194 + 15 * i) (nullpadString e.name2 15))
        (i + 1) es
    else writeTop10Entries buf (i + 1) es

/-- `_top10ToBuffer`'s inner `parse` (lev.js 484-503): sort the list in
place (the first component is the sorted list the level now holds), then
fill a zeroed 344-byte buffer with the capped count and the kept
entries. -/
def top10Half (list : List TimeEntry) : List TimeEntry × List Nat :=
  let sorted := sortByTime list
  (sorted,
    writeTop10Entries
      (writeBytes (List.replicate 344 0) 0
        (le32 (if 10 ≤ sorted.length then 10 else sorted.length)))
      0 sorted)

/-- `_top10ToBuffer` (lev.js 482-508): serialize both halves (sorting
both lists in place — the first component is the mutated `top10`),
concatenate to 688 bytes and encrypt. -/
def _top10ToBuffer (t : Top10) : Top10 × List Nat :=
  let s := top10Half t.single
  let m := top10Half t.multi
  (⟨s.1, m.1⟩, cryptTop10 (s.2 ++ m.2))

/-- `_parseTop10` (lev.js 266-283): read the entry count from the first
four bytes as a signed 32-bit integer, then read each entry's time (also
as a *signed* 32-bit read) and trimmed names from their positional
slots. -/
def _parseTop10 (buffer : List Nat) : List TimeEntry :=
  (List.range (readInt32LE (slice buffer 0 4)).toNat).map fun i =>
    { time := readInt32LE (slice buffer (4 + i * 4) 4)
      name1 := trimString (slice buffer (44 + i * 15) 15)
      name2 := trimString (slice buffer (194 + i * 15) 15) }

/-- Validity of a fixed-width ASCII string field: fits the width, no
null bytes (so null-padding round-trips), and byte-valued. -/
def validName (bs : List Nat) (w : Nat) : Bool :=
  decide (bs.length ≤ w) && bs.all (fun b => b != 0 && decide (b < 0x100))

/-- Validity of a score entry as the data model declares it: `time` is a
uint32 (the range `writeUInt32LE` accepts) and the names fit their
15-byte slots. -/
def validEntry (e : TimeEntry) : Bool :=
  decide (0 ≤ e.time) && decide (e.time < 0x100000000) &&
    validName e.name1 15 && validName e.name2 15

/-! ## The level data model (the `Level` class fields, lev.js 13-34) -/

/-- A polygon vertex. -/
structure Point where
  x : ℚ
  y : ℚ
deriving DecidableEq

/-- Apple gravity direction (decode: lev.js 144-163). -/
inductive Gravity
  | normal
  | up
  | down
  | left
  | right
deriving DecidableEq

/-- Object kind; only apples carry a gravity and a (1-based) animation
frame (decode: lev.js 138-175). -/
inductive ObjectKind
  | exit
  | apple (gravity : Gravity) (animation : Int)
  | killer
  | start
deriving DecidableEq

/-- A level object `{x, y, type, gravity?, animation?}`. -/
structure LevObject where
  x : ℚ
  y : ℚ
  type : ObjectKind
deriving DecidableEq

/-- A polygon `{grass, vertices}`. -/
structure Polygon where
  grass : Bool
  vertices : List Point
deriving DecidableEq

/-- Picture clipping (decode: lev.js 198-211). -/
inductive Clip
  | unclipped
  | ground
  | sky
deriving DecidableEq

/-- A picture record (decode: lev.js 182-213). -/
structure Picture where
  name : List Nat
  texture : List Nat
  mask : List Nat
  x : ℚ
  y : ℚ
  distance : Int
  clip : Clip
deriving DecidableEq

/-- The level value (the `Level` class fields; ASCII strings are byte
lists, IEEE doubles are exact rationals). -/
structure Level where
  version : List Nat
  link : Nat
  integrity : List ℚ
  lgr : List Nat
  name : List Nat
  ground : List Nat
  sky : List Nat
  polygons : List Polygon
  objects : List LevObject
  pictures : List Picture
  top10 : Top10
deriving DecidableEq

/-- ASCII bytes of the version tag "POT14". -/
def elmaTag : List Nat := [80, 79, 84, 49, 52]

/-- ASCII bytes of the legacy version tag "POT06". -/
def acrossTag : List Nat := [80, 79, 84, 48, 54]

/-- ASCII bytes of the `version` field value `Elma`. -/
def elmaVersion : List Nat := [69, 108, 109, 97]

/-- Modelled from the spec (section 6): the end-of-data marker constant
`EOD_MARKER` lives in `const.js`, which is not under `src/`; no claim
depends on its concrete value, fixed here so the codec is executable. -/
def EOD_MARKER : Int := 0x0067103A

/-- Modelled from the spec (section 6): the end-of-file marker constant
`EOF_MARKER` from `const.js` (not under `src/`), value likewise opaque. -/
def EOF_MARKER : Int := 0x00845D52

/-! ## The scalar-cell view of a level file buffer

The decoder walks the byte buffer with a monotone cursor reading scalar
slots: fixed-width string regions, 16/32-bit integers, 8-byte doubles,
and the one 688-byte crypted block.  A `Cell` is one such slot, so a
buffer is a `List Cell`; a read past the end of the byte buffer (Node
throws a `RangeError`, rejecting the decode promise) is a read on an
exhausted cell list, reported as `DecodeError.unexpectedEndOfData`. -/

inductive Cell
  | str (bs : List Nat)
  | u16 (v : Nat)
  | u32 (v : Nat)
  | i32 (v : Int)
  | f64 (q : ℚ)
  | raw (bs : List Nat)
deriving DecidableEq

/-- Decode failure outcomes of `_parseFile`, one per `reject` string in
the source, plus the out-of-bounds-read rejection (Node `RangeError`,
the spec's `UnexpectedEndOfData`) and a cell-kind mismatch (an artifact
of the scalar-cell view: the byte-level source would instead reinterpret
raw bytes; no claim depends on this case). -/
inductive DecodeError
  | acrossNotSupported
  | notValidLevel
  | invalidGravity
  | invalidObject
  | invalidClip
  | eodMarkerError
  | eofMarkerError
  | unexpectedEndOfData
  | cellKindMismatch
deriving DecidableEq

/-- Encode failure of `_update` (lev.js 340-343): only Elma levels are
supported.  (The source's other encode rejects — invalid object, gravity
or clip values — are unreachable here because the embedded `Level` type
already rules those values out.) -/
inductive EncodeError
  | onlyElmaSupported
deriving DecidableEq

/-- A parser over the cell buffer: the value read and the remaining
cells, or the first decode error. -/
abbrev CellReader (α : Type) := List Cell → Except DecodeError (α × List Cell)

/-- Sequencing of buffer reads: surface the first error, else continue
at the advanced cursor. -/
def pbind {α β : Type} (g : CellReader α) (h : α → CellReader β) : CellReader β := fun cs =>
  match g cs with
  | .error e => .error e
  | .ok (a, cs1) => h a cs1

/-- A pure step that reads nothing. -/
def pret {α : Type} (a : α) : CellReader α := fun cs => .ok (a, cs)

/-- A failing step (`reject` in the source). -/
def perr {α : Type} (e : DecodeError) : CellReader α := fun _ => .error e

/-- Read a fixed-width string region. -/
def readString : CellReader (List Nat)
  | Cell.str bs :: rest => .ok (bs, rest)
  | [] => .error .unexpectedEndOfData
  | _ :: _ => .error .cellKindMismatch

/-- The 5-byte version-tag read (lev.js 65): `buffer.toString('ascii', 0, 5)`
clamps the range to the buffer's end instead of throwing, so on an exhausted
input it yields the clamped (empty) string — which then falls through the
version switch to the `Not valid Elma level.` rejection — rather than
failing with an out-of-range read error. -/
def readTag : CellReader (List Nat)
  | Cell.str bs :: rest => .ok (bs, rest)
  | [] => .ok ([], [])
  | _ :: _ => .error .cellKindMismatch

/-- Skip the two reserved bytes at offset 5 (written as a uint16). -/
def readUInt16 : CellReader Nat
  | Cell.u16 v :: rest => .ok (v, rest)
  | [] => .error .unexpectedEndOfData
  | _ :: _ => .error .cellKindMismatch

/-- `buffer.readUInt32LE` as a cell read. -/
def readUInt32 : CellReader Nat
  | Cell.u32 v :: rest => .ok (v, rest)
  | [] => .error .unexpectedEndOfData
  | _ :: _ => .error .cellKindMismatch

/-- `buffer.readInt32LE` as a cell read. -/
def readInt32 : CellReader Int
  | Cell.i32 v :: rest => .ok (v, rest)
  | [] => .error .unexpectedEndOfData
  | _ :: _ => .error .cellKindMismatch

/-- `buffer.readDoubleLE` as a cell read. -/
def readDouble : CellReader ℚ
  | Cell.f64 q :: rest => .ok (q, rest)
  | [] => .error .unexpectedEndOfData
  | _ :: _ => .error .cellKindMismatch

/-- `buffer.slice(offset, offset + 688)` for the crypted block. -/
def readRaw : CellReader (List Nat)
  | Cell.raw bs :: rest => .ok (bs, rest)
  | [] => .error .unexpectedEndOfData
  | _ :: _ => .error .cellKindMismatch

/-- The iteration count of `for (let i = 0; i < bound; i++)` over a
(finite) numeric bound: the number of naturals below `bound`, i.e. the
ceiling of `bound` when it is positive and `0` otherwise.  The source
never rounds its float loop bounds. -/
def loopCount (q : ℚ) : Nat := ⌈q⌉.toNat

/-! ## Decoder (`_parseFile`, lev.js 60-236) -/

/-- The inner vertex loop (lev.js 112-119). -/
def parseVertices : Nat → CellReader (List Point)
  | 0 => pret []
  | n + 1 =>
    pbind readDouble fun x =>
    pbind readDouble fun y =>
    pbind (parseVertices n) fun vs =>
    pret (⟨x, y⟩ :: vs)

/-- The polygon loop (lev.js 105-121): a 32-bit grass flag (nonzero means
grass), a 32-bit vertex count, then that many vertex pairs. -/
def parsePolygons : Nat → CellReader (List Polygon)
  | 0 => pret []
  | n + 1 =>
    pbind readInt32 fun grassVal =>
    pbind readInt32 fun vertexCount =>
    pbind (parseVertices vertexCount.toNat) fun vs =>
    pbind (parsePolygons n) fun ps =>
    pret (⟨grassVal != 0, vs⟩ :: ps)

/-- One object record (lev.js 126-177): two doubles, then type, gravity
and animation codes; the animation is incremented before the type switch
and only stored for apples; gravity is only interpreted for apples. -/
def parseObject : CellReader LevObject :=
  pbind readDouble fun x =>
  pbind readDouble fun y =>
  pbind readInt32 fun objType =>
  pbind readInt32 fun gravity =>
  pbind readInt32 fun animationRaw =>
  if objType = 1 then pret ⟨x, y, .exit⟩
  else if objType = 2 then
    (if gravity = 0 then pret ⟨x, y, .apple .normal (animationRaw + 1)⟩
     else if gravity = 1 then pret ⟨x, y, .apple .up (animationRaw + 1)⟩
     else if gravity = 2 then pret ⟨x, y, .apple .down (animationRaw + 1)⟩
     else if gravity = 3 then pret ⟨x, y, .apple .left (animationRaw + 1)⟩
     else if gravity = 4 then pret ⟨x, y, .apple .right (animationRaw + 1)⟩
     else perr .invalidGravity)
  else if objType = 3 then pret ⟨x, y, .killer⟩
  else if objType = 4 then pret ⟨x, y, .start⟩
  else perr .invalidObject

/-- The object loop (lev.js 126-177). -/
def parseObjects : Nat → CellReader (List LevObject)
  | 0 => pret []
  | n + 1 =>
    pbind parseObject fun o =>
    pbind (parseObjects n) fun os =>
    pret (o :: os)

/-- One picture record (lev.js 182-213): three trimmed 10-byte strings,
two doubles, a 32-bit distance, and a clip code in {0, 1, 2}. -/
def parsePicture : CellReader Picture :=
  pbind readString fun name =>
  pbind readString fun texture =>
  pbind readString fun mask =>
  pbind readDouble fun x =>
  pbind readDouble fun y =>
  pbind readInt32 fun distance =>
  pbind readInt32 fun clip =>
  if clip = 0 then
    pret ⟨trimString name, trimString texture, trimString mask, x, y, distance, .unclipped⟩
  else if clip = 1 then
    pret ⟨trimString name, trimString texture, trimString mask, x, y, distance, .ground⟩
  else if clip = 2 then
    pret ⟨trimString name, trimString texture, trimString mask, x, y, distance, .sky⟩
  else perr .invalidClip

/-- The picture loop (lev.js 182-213). -/
def parsePictures : Nat → CellReader (List Picture)
  | 0 => pret []
  | n + 1 =>
    pbind parsePicture fun p =>
    pbind (parsePictures n) fun ps =>
    pret (p :: ps)

/-- The integrity block: four doubles (lev.js 84-87). -/
def parseDoubles : Nat → CellReader (List ℚ)
  | 0 => pret []
  | n + 1 =>
    pbind readDouble fun q =>
    pbind (parseDoubles n) fun qs =>
    pret (q :: qs)

/-- The tail of `_parseFile` (lev.js 215-235): the end-of-data marker,
the crypted 688-byte score block (decrypted and split 344/344), the
end-of-file marker, then the resolved level. -/
def parseLevelFinish (link : Nat) (integrity : List ℚ) (name lgr ground sky : List Nat)
    (polygons : List Polygon) (objects : List LevObject) (pictures : List Picture) :
    CellReader Level :=
  pbind readInt32 fun eod =>
  if eod ≠ EOD_MARKER then perr .eodMarkerError
  else
  pbind readRaw fun topBytes =>
  pbind readInt32 fun eof =>
  if eof ≠ EOF_MARKER then perr .eofMarkerError
  else
    pret
      { version := elmaVersion, link := link, integrity := integrity,
        lgr := trimString lgr, name := trimString name,
        ground := trimString ground, sky := trimString sky,
        polygons := polygons, objects := objects, pictures := pictures,
        top10 := ⟨_parseTop10 (slice (cryptTop10 topBytes) 0 344),
          _parseTop10 ((cryptTop10 topBytes).drop 344)⟩ }

/-- The middle of `_parseFile` (lev.js 102-213): the three biased
float-counted lists — polygons, objects, pictures — each count read as a
double minus its bias and used directly as the loop bound. -/
def parseLevelSections (link : Nat) (integrity : List ℚ)
    (name lgr ground sky : List Nat) : CellReader Level :=
  pbind readDouble fun polyCountRaw =>
  pbind (parsePolygons (loopCount (polyCountRaw - 0.4643643))) fun polygons =>
  pbind readDouble fun objCountRaw =>
  pbind (parseObjects (loopCount (objCountRaw - 0.4643643))) fun objects =>
  pbind readDouble fun picCountRaw =>
  pbind (parsePictures (loopCount (picCountRaw - 0.2345672))) fun pictures =>
  parseLevelFinish link integrity name lgr ground sky polygons objects pictures

/-- The reads of `_parseFile` after the version switch (lev.js 77-213):
two reserved bytes, link, integrity, the four strings, then the list
sections and markers. -/
def parseLevelAfterTag : CellReader Level :=
  pbind readUInt16 fun _garbage =>
  pbind readUInt32 fun link =>
  pbind (parseDoubles 4) fun integrity =>
  pbind readString fun name =>
  pbind readString fun lgr =>
  pbind readString fun ground =>
  pbind readString fun sky =>
  parseLevelSections link integrity name lgr ground sky

/-- `_parseFile` as a cursor parser (lev.js 60-236): the clamping version-tag
read and the version switch, then the remaining reads.  Trailing cells are
ignored, as the source ignores trailing bytes. -/
def parseLevel : CellReader Level :=
  pbind readTag fun version =>
  if version = acrossTag then perr .acrossNotSupported
  else if version ≠ elmaTag then perr .notValidLevel
  else parseLevelAfterTag

/-- `_parseFile`: run the parser and return the level (the source
resolves the level and ignores any bytes after the end-of-file
marker). -/
def _parseFile (cs : List Cell) : Except DecodeError Level :=
  match parseLevel cs with
  | .error e => .error e
  | .ok (l, _) => .ok l

/-! ## Integrity deriver (`_calculateIntegrity`, lev.js 285-322) -/

/-- The `obj_val` if-chain (lev.js 297-300). -/
def objTypeVal : ObjectKind → ℚ
  | .exit => 1
  | .apple _ _ => 2
  | .killer => 3
  | .start => 4

/-- `_calculateIntegrity` (lev.js 285-316), with the three
`_getRandomInt` draws passed in as parameters: `_getRandomInt(0, m)`
returns a uniform integer in `[0, m)`, so a draw is a natural below its
bound. -/
def _calculateIntegrity (l : Level) (r1 r2 r3 : Nat) : List ℚ :=
  let polSum := l.polygons.foldl
    (fun acc p => acc + p.vertices.foldl (fun a v => a + v.x + v.y) 0) 0
  let objSum := l.objects.foldl (fun acc o => acc + o.x + o.y + objTypeVal o.type) 0
  let picSum := l.pictures.foldl (fun acc p => acc + p.x + p.y) 0
  let sum := (polSum + objSum + picSum) * 3247.764325643
  [sum, (r1 : ℚ) + 11877 - sum, (r2 : ℚ) + 11877 - sum, (r3 : ℚ) + 12112 - sum]

/-- Modelled from the spec (section 4.5): the kind weight Exit=1,
Apple=2, Killer=3, Start=4. -/
def kindWeight : ObjectKind → ℚ
  | .exit => 1
  | .apple _ _ => 2
  | .killer => 3
  | .start => 4

/-- Modelled from the spec (section 4.5): `geometrySum` — the sum over
all polygon vertices of `x + y`, plus the sum over all objects of
`x + y + kindWeight`, plus the sum over all pictures of `x + y`. -/
def specGeometrySum (l : Level) : ℚ :=
  (l.polygons.map (fun p => (p.vertices.map (fun v => v.x + v.y)).sum)).sum
    + (l.objects.map (fun o => o.x + o.y + kindWeight o.type)).sum
    + (l.pictures.map (fun p => p.x + p.y)).sum

/-! ## Encoder (`_update`, lev.js 329-475) -/

/-- Vertex pairs of one polygon (lev.js 366-371). -/
def writeVertexCells : List Point → List Cell
  | [] => []
  | v :: vs => Cell.f64 v.x :: Cell.f64 v.y :: writeVertexCells vs

/-- The polygon block (lev.js 361-372): grass flag as 1/0, vertex count,
vertex pairs. -/
def writePolygonCells : List Polygon → List Cell
  | [] => []
  | p :: ps =>
    Cell.i32 (if p.grass then 1 else 0) :: Cell.i32 (p.vertices.length : Int)
      :: (writeVertexCells p.vertices ++ writePolygonCells ps)

/-- Gravity enum to integer code (lev.js 386-405). -/
def gravityCode : Gravity → Int
  | .normal => 0
  | .up => 1
  | .down => 2
  | .left => 3
  | .right => 4

/-- One object record (lev.js 376-428): gravity and animation codes are
zero except for apples, whose stored animation is `animation - 1`. -/
def objectCells (o : LevObject) : List Cell :=
  match o.type with
  | .exit => [Cell.f64 o.x, Cell.f64 o.y, Cell.i32 1, Cell.i32 0, Cell.i32 0]
  | .apple g a =>
    [Cell.f64 o.x, Cell.f64 o.y, Cell.i32 2, Cell.i32 (gravityCode g), Cell.i32 (a - 1)]
  | .killer => [Cell.f64 o.x, Cell.f64 o.y, Cell.i32 3, Cell.i32 0, Cell.i32 0]
  | .start => [Cell.f64 o.x, Cell.f64 o.y, Cell.i32 4, Cell.i32 0, Cell.i32 0]

/-- The object block. -/
def writeObjectCells : List LevObject → List Cell
  | [] => []
  | o :: os => objectCells o ++ writeObjectCells os

/-- Clip enum to integer code (lev.js 449-462). -/
def clipCode : Clip → Int
  | .unclipped => 0
  | .ground => 1
  | .sky => 2

/-- One picture record (lev.js 432-465). -/
def pictureCells (p : Picture) : List Cell :=
  [Cell.str (nullpadString p.name 10), Cell.str (nullpadString p.texture 10),
    Cell.str (nullpadString p.mask 10), Cell.f64 p.x, Cell.f64 p.y,
    Cell.i32 p.distance, Cell.i32 (clipCode p.clip)]

/-- The picture block. -/
def writePictureCells : List Picture → List Cell
  | [] => []
  | p :: ps => pictureCells p ++ writePictureCells ps

/-- The cell sequence written by `_update` (lev.js 344-471): tag, the
link's low 16 bits into the two reserved bytes, link, integrity, the
four null-padded strings, the three bias-offset float counts with their
blocks, end-of-data marker, crypted score block, end-of-file marker. -/
def encodeCells (l : Level) (integ : List ℚ) (topBytes : List Nat) : List Cell :=
  Cell.str elmaTag :: Cell.u16 (l.link % 0x10000) :: Cell.u32 l.link ::
    (integ.map Cell.f64 ++
      (Cell.str (nullpadString l.name 51) :: Cell.str (nullpadString l.lgr 16) ::
        Cell.str (nullpadString l.ground 10) :: Cell.str (nullpadString l.sky 10) ::
        Cell.f64 ((l.polygons.length : ℚ) + 0.4643643) ::
        (writePolygonCells l.polygons ++
          (Cell.f64 ((l.objects.length : ℚ) + 0.4643643) ::
            (writeObjectCells l.objects ++
              (Cell.f64 ((l.pictures.length : ℚ) + 0.2345672) ::
                (writePictureCells l.pictures ++
                  [Cell.i32 EOD_MARKER, Cell.raw topBytes, Cell.i32 EOF_MARKER])))))))

/-- `_update` (lev.js 329-475): recompute the integrity, reject non-Elma
versions, serialize.  The returned level is the mutated `this`: its
`integrity` is the recomputed tuple, and its two top-10 lists have been
sorted in place by `_top10ToBuffer`. -/
def _update (l : Level) (r1 r2 r3 : Nat) : Except EncodeError (Level × List Cell) :=
  let integ := _calculateIntegrity l r1 r2 r3
  if l.version ≠ elmaVersion then .error .onlyElmaSupported
  else
    let t10 := _top10ToBuffer l.top10
    .ok ({ l with integrity := integ, top10 := t10.1 }, encodeCells l integ t10.2)

/-! ## Validity of a constructed level -/

/-- An apple's 1-based animation frame survives the `- 1` / `+ 1`
round-trip through a 32-bit write for `1 ≤ animation ≤ 2^31`. -/
def validObject (o : LevObject) : Bool :=
  match o.type with
  | .apple _ a => decide (1 ≤ a) && decide (a ≤ 0x80000000)
  | _ => true

/-- The vertex count must fit `writeInt32LE`. -/
def validPolygon (p : Polygon) : Bool :=
  decide (p.vertices.length < 0x80000000)

/-- Picture strings fit their widths; the distance fits `writeInt32LE`. -/
def validPicture (p : Picture) : Bool :=
  validName p.name 10 && validName p.texture 10 && validName p.mask 10 &&
    decide (-0x80000000 ≤ p.distance) && decide (p.distance < 0x80000000)

/-- Adjacent-sorted ascending by time. -/
def sortedByTime : List TimeEntry → Bool
  | [] => true
  | [_] => true
  | a :: b :: t => decide (a.time ≤ b.time) && sortedByTime (b :: t)

/-- Validity of a level as constructed by the surrounding application:
the version is `Elma`, the link is a uint32, strings fit their widths
with no null bytes, and all counts fit their 32-bit slots. -/
def validLevel (l : Level) : Bool :=
  decide (l.version = elmaVersion) && decide (l.link < 0x100000000) &&
    validName l.name 51 && validName l.lgr 16 && validName l.ground 10 &&
    validName l.sky 10 && l.polygons.all validPolygon && l.objects.all validObject &&
    l.pictures.all validPicture && l.top10.single.all validEntry &&
    l.top10.multi.all validEntry

/-- A small valid level with sorted score lists, used to instantiate the
round-trip theorems. -/
def sampleLevel : Level :=
  { version := elmaVersion, link := 42, integrity := [0, 0, 0, 0],
    lgr := [100, 101, 102], name := [84, 101, 115, 116], ground := [103, 114],
    sky := [115, 107],
    polygons := [⟨false, [⟨10, 0⟩, ⟨10, 7⟩, ⟨0, 7⟩, ⟨0, 0⟩]⟩],
    objects := [⟨2, 6, .start⟩, ⟨8, 6, .exit⟩, ⟨5, 5, .apple .normal 1⟩],
    pictures := [⟨[98], [116], [109], 1, 2, 500, .sky⟩],
    top10 := ⟨[⟨100, [65], [66]⟩, ⟨200, [67], [68]⟩], []⟩ }

/-- The same level with its single-player score list out of time order:
valid per the data model, but not sorted. -/
def unsortedLevel : Level :=
  { sampleLevel with top10 := ⟨[⟨200, [67], [68]⟩, ⟨100, [65], [66]⟩], []⟩ }

/-- A decode input whose polygon-count field carries the double `q`,
followed by `ps` polygon records, zero objects and pictures (counts are
their exact biases), and an all-zero crypted score block. -/
def countProbeCells (q : ℚ) (ps : List Polygon) : List Cell :=
  Cell.str elmaTag :: Cell.u16 0 :: Cell.u32 0 :: Cell.f64 0 :: Cell.f64 0 ::
    Cell.f64 0 :: Cell.f64 0 :: Cell.str [] :: Cell.str [] :: Cell.str [] ::
    Cell.str [] :: Cell.f64 q ::
    (writePolygonCells ps ++
      (Cell.f64 0.4643643 :: Cell.f64 0.2345672 :: Cell.i32 EOD_MARKER ::
        Cell.raw (cryptTop10 (List.replicate 688 0)) :: [Cell.i32 EOF_MARKER]))

/-- A decode input containing a single object record with the given
type, gravity and animation codes. -/
def objectProbeCells (t g a : Int) : List Cell :=
  Cell.str elmaTag :: Cell.u16 0 :: Cell.u32 0 :: Cell.f64 0 :: Cell.f64 0 ::
    Cell.f64 0 :: Cell.f64 0 :: Cell.str [] :: Cell.str [] :: Cell.str [] ::
    Cell.str [] :: Cell.f64 0.4643643 ::
    Cell.f64 (((1 : Nat) : ℚ) + 0.4643643) :: Cell.f64 0 :: Cell.f64 0 ::
    Cell.i32 t :: Cell.i32 g :: Cell.i32 a ::
    Cell.f64 0.2345672 :: Cell.i32 EOD_MARKER ::
    Cell.raw (cryptTop10 (List.replicate 688 0)) :: [Cell.i32 EOF_MARKER]

/-- A decode input containing a single picture record with the given
clip code. -/
def pictureProbeCells (c : Int) : List Cell :=
  Cell.str elmaTag :: Cell.u16 0 :: Cell.u32 0 :: Cell.f64 0 :: Cell.f64 0 ::
    Cell.f64 0 :: Cell.f64 0 :: Cell.str [] :: Cell.str [] :: Cell.str [] ::
    Cell.str [] :: Cell.f64 0.4643643 :: Cell.f64 0.4643643 ::
    Cell.f64 (((1 : Nat) : ℚ) + 0.2345672) ::
    Cell.str [] :: Cell.str [] :: Cell.str [] :: Cell.f64 0 :: Cell.f64 0 ::
    Cell.i32 7 :: Cell.i32 c ::
    Cell.i32 EOD_MARKER ::
    Cell.raw (cryptTop10 (List.replicate 688 0)) :: [Cell.i32 EOF_MARKER]

/-- A concrete 15-entry score list (descending times, so sorting is
non-trivial), used to instantiate the score-table theorems. -/
def sampleEntries : List TimeEntry :=
  [⟨1500, [65], [80]⟩, ⟨1400, [66], [80]⟩, ⟨1300, [67], [80]⟩, ⟨1200, [68], [80]⟩,
   ⟨1100, [69], [80]⟩, ⟨1000, [70], [80]⟩, ⟨900, [71], [80]⟩, ⟨800, [72], [80]⟩,
   ⟨700, [73], [80]⟩, ⟨600, [74], [80]⟩, ⟨500, [75], [80]⟩, ⟨400, [76], [80]⟩,
   ⟨300, [77], [80]⟩, ⟨200, [78], [80]⟩, ⟨100, [79], [80]⟩]

/-- Well-behavedness of a cursor parser with respect to truncation: a
successful run consumes a definite prefix of the input, succeeds
identically on that prefix followed by anything, and fails with
`unexpectedEndOfData` — the error Node's `Buffer` reads raise as a
`RangeError` when a read would run past the buffer end — on every
proper prefix of the consumed cells. -/
def ParserOk {α : Type} (f : CellReader α) : Prop :=
  ∀ cs a rest, f cs = .ok (a, rest) →
    ∃ xs, cs = xs ++ rest ∧ (∀ rest2, f (xs ++ rest2) = .ok (a, rest2)) ∧
      (∀ k, k < xs.length → f (xs.take k) = .error .unexpectedEndOfData)

end Elma

namespace Elma

theorem cryptBytes_cryptBytes (l : List Nat) :
    ∀ e8 e10, cryptBytes e8 e10 (cryptBytes e8 e10 l) = l := by
  induction l with
  | nil => intro e8 e10; rfl
  | cons b bs ih =>
    intro e8 e10
    simp only [cryptBytes, ih]
    congr 1
    rw [Nat.xor_assoc, Nat.xor_self, Nat.xor_zero]

/-- C2: applying the Top10 cipher twice to any 688-byte input returns the
original input; in this purely functional embedding `cryptTop10` is by
construction a pure function of its input and leaves the input unchanged
(the source also copies its argument with `Buffer.from` before writing). -/
theorem cryptTop10_involutive (x : List Nat) (_h : x.length = 688) :
    cryptTop10 (cryptTop10 x) = x := by
  unfold cryptTop10
  exact cryptBytes_cryptBytes x _ _

theorem cryptTop10_involutive_witness :
    (List.replicate 688 0).length = 688 ∧
      cryptTop10 (cryptTop10 (List.replicate 688 0)) = List.replicate 688 0 :=
  ⟨List.length_replicate 688 0,
    cryptTop10_involutive (List.replicate 688 0) (List.length_replicate 688 0)⟩

theorem cryptBytes_eq_specCryptBytes (l : List Nat) :
    ∀ e8 e10 k2, e10 % 0x100000000 = k2 % 0x100000000 →
      cryptBytes e8 e10 l = specCryptBytes e8 k2 l := by
  induction l with
  | nil => intro _ _ _ _; rfl
  | cons b bs ih =>
    intro e8 e10 k2 hmod
    simp only [cryptBytes, specCryptBytes]
    have hstep : ∀ x y : Int, x % 0x100000000 = y % 0x100000000 →
        (x * 0x1F + 0xD3D) % 0x10000 = (y * 0x1F + 0xD3D) % 0x10000 := by
      intro x y hxy
      have h1 : (0x10000 : Int) ∣ 0x100000000 := by decide
      have h2 : (x * 0x1F + 0xD3D) % 0x100000000 = (y * 0x1F + 0xD3D) % 0x100000000 := by
        conv_lhs => rw [Int.add_emod, Int.mul_emod, hxy]
        conv_rhs => rw [Int.add_emod, Int.mul_emod]
      calc (x * 0x1F + 0xD3D) % 0x10000
          = (x * 0x1F + 0xD3D) % 0x100000000 % 0x10000 :=
            (Int.emod_emod_of_dvd _ h1).symm
        _ = (y * 0x1F + 0xD3D) % 0x100000000 % 0x10000 := by rw [h2]
        _ = (y * 0x1F + 0xD3D) % 0x10000 := Int.emod_emod_of_dvd _ h1
    have he10' : (e10 + Int.tmod e8 0xD3D * 0xD3D) % 0x100000000
        = wrap32 (k2 + Int.tmod e8 0xD3D * 0xD3D) % 0x100000000 := by
      unfold wrap32
      have hw : ∀ z : Int, ((z + 0x80000000) % 0x100000000 - 0x80000000) % 0x100000000
          = z % 0x100000000 := by
        intro z
        conv_lhs =>
          rw [Int.sub_emod, Int.emod_emod_of_dvd _ (dvd_refl (0x100000000 : Int)),
            ← Int.sub_emod]
        rw [add_sub_cancel_right]
      rw [hw]
      rw [Int.add_emod, hmod, ← Int.add_emod]
    have hlow := hstep _ _ he10'
    have hlowrange : 0 ≤ ((e10 + Int.tmod e8 0xD3D * 0xD3D) * 0x1F + 0xD3D) % 0x10000 ∧
        ((e10 + Int.tmod e8 0xD3D * 0xD3D) * 0x1F + 0xD3D) % 0x10000 < 0x10000 := by
      constructor
      · exact Int.emod_nonneg _ (by decide)
      · exact Int.emod_lt_of_pos _ (by decide)
    have hkey : (cryptStep e8 e10).1 = (specKeyStep e8 k2).1 := by
      simp only [cryptStep, specKeyStep]
      rw [← hlow]
      omega
    have hst : (cryptStep e8 e10).2 % 0x100000000 = (specKeyStep e8 k2).2 % 0x100000000 := by
      simp only [cryptStep, specKeyStep]
      exact he10'
    rw [ih (cryptStep e8 e10).1 (cryptStep e8 e10).2 (specKeyStep e8 k2).2 hst, hkey]

/-- C3: the Top10 cipher's byte outputs follow exactly the spec's key
recurrence — seeds `key1 = 0x15`, `key2 = 0x2637`; each output byte is the
input byte XOR the low 8 bits of `key1`; `key2` accumulates
`(key1 tmod 0xD3D) * 0xD3D` under 32-bit signed wraparound; `key1` becomes
`key2 * 0x1F + 0xD3D` masked to 16 bits and reinterpreted as signed 16-bit
(values at or above 0x8000 drop by 0x10000).  The source keeps `ebp10`
as an exact (non-wrapped) integer, which produces the same byte stream. -/
theorem cryptTop10_eq_specCryptTop10 (x : List Nat) (_h : x.length = 688) :
    cryptTop10 x = specCryptTop10 x := by
  unfold cryptTop10 specCryptTop10
  exact cryptBytes_eq_specCryptBytes x 0x15 0x2637 0x2637 rfl

theorem cryptTop10_eq_specCryptTop10_witness :
    (List.replicate 688 1).length = 688 ∧
      cryptTop10 (List.replicate 688 1) = specCryptTop10 (List.replicate 688 1) :=
  ⟨List.length_replicate 688 1,
    cryptTop10_eq_specCryptTop10 (List.replicate 688 1) (List.length_replicate 688 1)⟩

theorem cryptBytes_length (l : List Nat) : ∀ e8 e10, (cryptBytes e8 e10 l).length = l.length := by
  induction l with
  | nil => intro _ _; rfl
  | cons b bs ih => intro e8 e10; simp [cryptBytes, ih]

theorem cryptTop10_length (l : List Nat) : (cryptTop10 l).length = l.length :=
  cryptBytes_length l _ _

/-! ## Byte-buffer lemmas -/

theorem nullpadString_length (bs : List Nat) (w : Nat) :
    (nullpadString bs w).length = w := by
  simp [nullpadString]

theorem writeBytes_length (buf bs : List Nat) (off : Nat)
    (h : off + bs.length ≤ buf.length) :
    (writeBytes buf off bs).length = buf.length := by
  simp [writeBytes]
  omega

theorem slice_writeBytes_self (buf bs : List Nat) (off : Nat)
    (h : off + bs.length ≤ buf.length) :
    slice (writeBytes buf off bs) off bs.length = bs := by
  unfold writeBytes slice
  have h1 : (buf.take off).length = off := by
    rw [List.length_take]; omega
  rw [List.append_assoc, List.drop_append_eq_append_drop, h1, Nat.sub_self, List.drop_zero,
    List.drop_of_length_le (le_of_eq h1), List.nil_append,
    List.take_append_of_le_length (Nat.le_refl bs.length), List.take_length]

theorem slice_writeBytes_before (buf bs : List Nat) (o off len : Nat)
    (h : off + len ≤ o) (hbuf : o + bs.length ≤ buf.length) :
    slice (writeBytes buf o bs) off len = slice buf off len := by
  unfold writeBytes slice
  have hA : (buf.take o).length = o := by rw [List.length_take]; omega
  rw [List.append_assoc, List.drop_append_eq_append_drop, hA]
  have h0 : off - o = 0 := by omega
  rw [h0, List.drop_zero, List.drop_take, List.take_append_eq_append_take]
  have hlen : ((buf.drop off).take (o - off)).length = o - off := by
    rw [List.length_take, List.length_drop]; omega
  rw [hlen]
  have h2 : len - (o - off) = 0 := by omega
  rw [h2, List.take_zero, List.append_nil, List.take_take]
  have h3 : min len (o - off) = len := by omega
  rw [h3]

theorem slice_writeBytes_after (buf bs : List Nat) (o off len : Nat)
    (h : o + bs.length ≤ off) (hbuf : o + bs.length ≤ buf.length) :
    slice (writeBytes buf o bs) off len = slice buf off len := by
  unfold writeBytes slice
  have hA : (buf.take o).length = o := by rw [List.length_take]; omega
  rw [List.append_assoc, List.drop_append_eq_append_drop, hA,
    List.drop_of_length_le (show (buf.take o).length ≤ off by rw [hA]; omega),
    List.nil_append, List.drop_append_eq_append_drop,
    List.drop_of_length_le (show bs.length ≤ off - o by omega),
    List.nil_append, List.drop_drop]
  have h1 : o + bs.length + (off - o - bs.length) = off := by omega
  rw [h1]

theorem le32_length (v : Nat) : (le32 v).length = 4 := rfl

theorem writeEntry3_length (buf : List Nat) (i : Nat) (e : TimeEntry)
    (h : buf.length = 344) (hi : i < 10) :
    (writeBytes (writeBytes (writeBytes buf (4 + 4 * i) (le32 (e.time % 0x100000000).toNat))
        (44 + 15 * i) (nullpadString e.name1 15))
      (194 + 15 * i) (nullpadString e.name2 15)).length = 344 := by
  have h1 : (writeBytes buf (4 + 4 * i) (le32 (e.time % 0x100000000).toNat)).length = 344 := by
    rw [writeBytes_length _ _ _ (by rw [le32_length, h]; omega), h]
  have h2 : (writeBytes (writeBytes buf (4 + 4 * i) (le32 (e.time % 0x100000000).toNat))
      (44 + 15 * i) (nullpadString e.name1 15)).length = 344 := by
    rw [writeBytes_length _ _ _ (by rw [nullpadString_length, h1]; omega), h1]
  rw [writeBytes_length _ _ _ (by rw [nullpadString_length, h2]; omega), h2]

theorem writeTop10Entries_length (es : List TimeEntry) :
    ∀ i buf, buf.length = 344 → (writeTop10Entries buf i es).length = 344 := by
  induction es with
  | nil => intro i buf h; simpa [writeTop10Entries] using h
  | cons e tl ih =>
    intro i buf h
    unfold writeTop10Entries
    by_cases hi : i < 10
    · rw [if_pos hi]
      exact ih (i + 1) _ (writeEntry3_length buf i e h hi)
    · rw [if_neg hi]
      exact ih (i + 1) buf h

theorem slice_writeEntry3_disjoint (buf : List Nat) (i : Nat) (e : TimeEntry) (off len : Nat)
    (h : buf.length = 344) (hi : i < 10)
    (h1 : off + len ≤ 4 + 4 * i ∨ 8 + 4 * i ≤ off)
    (h2 : off + len ≤ 44 + 15 * i ∨ 59 + 15 * i ≤ off)
    (h3 : off + len ≤ 194 + 15 * i ∨ 209 + 15 * i ≤ off) :
    slice (writeBytes (writeBytes (writeBytes buf (4 + 4 * i) (le32 (e.time % 0x100000000).toNat))
        (44 + 15 * i) (nullpadString e.name1 15))
      (194 + 15 * i) (nullpadString e.name2 15)) off len = slice buf off len := by
  have hb1 : (writeBytes buf (4 + 4 * i) (le32 (e.time % 0x100000000).toNat)).length = 344 := by
    rw [writeBytes_length _ _ _ (by rw [le32_length, h]; omega), h]
  have hb2 : (writeBytes (writeBytes buf (4 + 4 * i) (le32 (e.time % 0x100000000).toNat))
      (44 + 15 * i) (nullpadString e.name1 15)).length = 344 := by
    rw [writeBytes_length _ _ _ (by rw [nullpadString_length, hb1]; omega), hb1]
  have s3 : slice (writeBytes (writeBytes (writeBytes buf (4 + 4 * i)
        (le32 (e.time % 0x100000000).toNat)) (44 + 15 * i) (nullpadString e.name1 15))
      (194 + 15 * i) (nullpadString e.name2 15)) off len
      = slice (writeBytes (writeBytes buf (4 + 4 * i) (le32 (e.time % 0x100000000).toNat))
          (44 + 15 * i) (nullpadString e.name1 15)) off len := by
    rcases h3 with hh | hh
    · exact slice_writeBytes_before _ _ _ _ _ hh (by rw [nullpadString_length, hb2]; omega)
    · exact slice_writeBytes_after _ _ _ _ _ (by rw [nullpadString_length]; omega)
        (by rw [nullpadString_length, hb2]; omega)
  have s2 : slice (writeBytes (writeBytes buf (4 + 4 * i)
        (le32 (e.time % 0x100000000).toNat)) (44 + 15 * i) (nullpadString e.name1 15)) off len
      = slice (writeBytes buf (4 + 4 * i) (le32 (e.time % 0x100000000).toNat)) off len := by
    rcases h2 with hh | hh
    · exact slice_writeBytes_before _ _ _ _ _ hh (by rw [nullpadString_length, hb1]; omega)
    · exact slice_writeBytes_after _ _ _ _ _ (by rw [nullpadString_length]; omega)
        (by rw [nullpadString_length, hb1]; omega)
  have s1 : slice (writeBytes buf (4 + 4 * i) (le32 (e.time % 0x100000000).toNat)) off len
      = slice buf off len := by
    rcases h1 with hh | hh
    · exact slice_writeBytes_before _ _ _ _ _ hh (by rw [le32_length, h]; omega)
    · exact slice_writeBytes_after _ _ _ _ _ (by rw [le32_length]; omega)
        (by rw [le32_length, h]; omega)
  rw [s3, s2, s1]

theorem slice_writeTop10Entries_disjoint (es : List TimeEntry) :
    ∀ i buf off len, buf.length = 344 →
      (∀ j, i ≤ j → j < 10 → j < i + es.length →
        (off + len ≤ 4 + 4 * j ∨ 8 + 4 * j ≤ off) ∧
        (off + len ≤ 44 + 15 * j ∨ 59 + 15 * j ≤ off) ∧
        (off + len ≤ 194 + 15 * j ∨ 209 + 15 * j ≤ off)) →
      slice (writeTop10Entries buf i es) off len = slice buf off len := by
  induction es with
  | nil => intro i buf off len _ _; simp [writeTop10Entries]
  | cons e tl ih =>
    intro i buf off len h hd
    unfold writeTop10Entries
    by_cases hi : i < 10
    · rw [if_pos hi]
      have hdi := hd i (Nat.le_refl i) hi (by simp only [List.length_cons]; omega)
      rw [ih (i + 1) _ off len (writeEntry3_length buf i e h hi)
        (fun j hj1 hj2 hj3 => hd j (by omega) hj2 (by simp only [List.length_cons] at hj3 ⊢; omega))]
      exact slice_writeEntry3_disjoint buf i e off len h hi hdi.1 hdi.2.1 hdi.2.2
    · rw [if_neg hi]
      exact ih (i + 1) buf off len h
        (fun j hj1 hj2 hj3 => hd j (by omega) hj2 (by simp only [List.length_cons] at hj3 ⊢; omega))

theorem slice_writeEntry3_self (buf : List Nat) (i : Nat) (e : TimeEntry)
    (h : buf.length = 344) (hi : i < 10) :
    slice (writeBytes (writeBytes (writeBytes buf (4 + 4 * i) (le32 (e.time % 0x100000000).toNat))
        (44 + 15 * i) (nullpadString e.name1 15))
      (194 + 15 * i) (nullpadString e.name2 15)) (4 + 4 * i) 4
        = le32 (e.time % 0x100000000).toNat ∧
      slice (writeBytes (writeBytes (writeBytes buf (4 + 4 * i)
          (le32 (e.time % 0x100000000).toNat)) (44 + 15 * i) (nullpadString e.name1 15))
        (194 + 15 * i) (nullpadString e.name2 15)) (44 + 15 * i) 15
        = nullpadString e.name1 15 ∧
      slice (writeBytes (writeBytes (writeBytes buf (4 + 4 * i)
          (le32 (e.time % 0x100000000).toNat)) (44 + 15 * i) (nullpadString e.name1 15))
        (194 + 15 * i) (nullpadString e.name2 15)) (194 + 15 * i) 15
        = nullpadString e.name2 15 := by
  have hb1 : (writeBytes buf (4 + 4 * i) (le32 (e.time % 0x100000000).toNat)).length = 344 := by
    rw [writeBytes_length _ _ _ (by rw [le32_length, h]; omega), h]
  have hb2 : (writeBytes (writeBytes buf (4 + 4 * i) (le32 (e.time % 0x100000000).toNat))
      (44 + 15 * i) (nullpadString e.name1 15)).length = 344 := by
    rw [writeBytes_length _ _ _ (by rw [nullpadString_length, hb1]; omega), hb1]
  refine ⟨?_, ?_, ?_⟩
  · rw [slice_writeBytes_before _ _ _ _ _ (by omega)
        (by rw [nullpadString_length, hb2]; omega),
      slice_writeBytes_before _ _ _ _ _ (by omega)
        (by rw [nullpadString_length, hb1]; omega)]
    have hs := slice_writeBytes_self buf (le32 (e.time % 0x100000000).toNat) (4 + 4 * i)
      (by rw [le32_length, h]; omega)
    rw [le32_length] at hs
    exact hs
  · rw [slice_writeBytes_before _ _ _ _ _ (by omega)
      (by rw [nullpadString_length, hb2]; omega)]
    have hs := slice_writeBytes_self
      (writeBytes buf (4 + 4 * i) (le32 (e.time % 0x100000000).toNat))
      (nullpadString e.name1 15) (44 + 15 * i)
      (by rw [nullpadString_length, hb1]; omega)
    rw [nullpadString_length] at hs
    exact hs
  · have hs := slice_writeBytes_self
      (writeBytes (writeBytes buf (4 + 4 * i) (le32 (e.time % 0x100000000).toNat))
        (44 + 15 * i) (nullpadString e.name1 15))
      (nullpadString e.name2 15) (194 + 15 * i)
      (by rw [nullpadString_length, hb2]; omega)
    rw [nullpadString_length] at hs
    exact hs

theorem writeTop10Entries_get (es : List TimeEntry) :
    ∀ i buf k e, buf.length = 344 → i + k < 10 → es[k]? = some e →
      slice (writeTop10Entries buf i es) (4 + 4 * (i + k)) 4
          = le32 (e.time % 0x100000000).toNat ∧
        slice (writeTop10Entries buf i es) (44 + 15 * (i + k)) 15
          = nullpadString e.name1 15 ∧
        slice (writeTop10Entries buf i es) (194 + 15 * (i + k)) 15
          = nullpadString e.name2 15 := by
  induction es with
  | nil => intro i buf k e _ _ hk; simp at hk
  | cons e0 tl ih =>
    intro i buf k e h hik hk
    unfold writeTop10Entries
    have hi : i < 10 := by omega
    rw [if_pos hi]
    cases k with
    | zero =>
      have he : e0 = e := by simpa using hk
      subst he
      have hw3 := writeEntry3_length buf i e0 h hi
      have hd1 : slice (writeTop10Entries (writeBytes (writeBytes (writeBytes buf (4 + 4 * i)
            (le32 (e0.time % 0x100000000).toNat)) (44 + 15 * i) (nullpadString e0.name1 15))
            (194 + 15 * i) (nullpadString e0.name2 15)) (i + 1) tl) (4 + 4 * (i + 0)) 4
          = slice (writeBytes (writeBytes (writeBytes buf (4 + 4 * i)
            (le32 (e0.time % 0x100000000).toNat)) (44 + 15 * i) (nullpadString e0.name1 15))
            (194 + 15 * i) (nullpadString e0.name2 15)) (4 + 4 * (i + 0)) 4 :=
        slice_writeTop10Entries_disjoint tl (i + 1) _ _ _ hw3
          (fun j hj1 hj2 _ => ⟨by omega, by omega, by omega⟩)
      have hd2 : slice (writeTop10Entries (writeBytes (writeBytes (writeBytes buf (4 + 4 * i)
            (le32 (e0.time % 0x100000000).toNat)) (44 + 15 * i) (nullpadString e0.name1 15))
            (194 + 15 * i) (nullpadString e0.name2 15)) (i + 1) tl) (44 + 15 * (i + 0)) 15
          = slice (writeBytes (writeBytes (writeBytes buf (4 + 4 * i)
            (le32 (e0.time % 0x100000000).toNat)) (44 + 15 * i) (nullpadString e0.name1 15))
            (194 + 15 * i) (nullpadString e0.name2 15)) (44 + 15 * (i + 0)) 15 :=
        slice_writeTop10Entries_disjoint tl (i + 1) _ _ _ hw3
          (fun j hj1 hj2 _ => ⟨by omega, by omega, by omega⟩)
      have hd3 : slice (writeTop10Entries (writeBytes (writeBytes (writeBytes buf (4 + 4 * i)
            (le32 (e0.time % 0x100000000).toNat)) (44 + 15 * i) (nullpadString e0.name1 15))
            (194 + 15 * i) (nullpadString e0.name2 15)) (i + 1) tl) (194 + 15 * (i + 0)) 15
          = slice (writeBytes (writeBytes (writeBytes buf (4 + 4 * i)
            (le32 (e0.time % 0x100000000).toNat)) (44 + 15 * i) (nullpadString e0.name1 15))
            (194 + 15 * i) (nullpadString e0.name2 15)) (194 + 15 * (i + 0)) 15 :=
        slice_writeTop10Entries_disjoint tl (i + 1) _ _ _ hw3
          (fun j hj1 hj2 _ => ⟨by omega, by omega, by omega⟩)
      have hself := slice_writeEntry3_self buf i e0 h hi
      rw [Nat.add_zero] at hd1 hd2 hd3 ⊢
      exact ⟨by rw [hd1]; exact hself.1, by rw [hd2]; exact hself.2.1,
        by rw [hd3]; exact hself.2.2⟩
    | succ k0 =>
      have hik0 : (i + 1) + k0 < 10 := by omega
      have hk0 : tl[k0]? = some e := by simpa using hk
      have h3 := ih (i + 1) _ k0 e (writeEntry3_length buf i e0 h hi) hik0 hk0
      have hidx : i + (k0 + 1) = (i + 1) + k0 := by omega
      rw [hidx]
      exact h3

/-! ## Fixed-width string and int32 round-trips -/

theorem takeWhile_append_replicate_zero (bs : List Nat) (k : Nat)
    (hz : ∀ b ∈ bs, b ≠ 0) :
    (bs ++ List.replicate k 0).takeWhile (fun b => b != 0) = bs := by
  induction bs with
  | nil =>
    simp only [List.nil_append]
    cases k with
    | zero => rfl
    | succ n => simp [List.replicate_succ, List.takeWhile_cons]
  | cons b tl ih =>
    have hb : b ≠ 0 := hz b (by simp)
    have hbb : (b != 0) = true := by simpa using hb
    simp only [List.cons_append, List.takeWhile_cons, hbb, if_true]
    rw [ih (fun x hx => hz x (by simp [hx]))]

theorem trimString_nullpadString (bs : List Nat) (w : Nat)
    (hlen : bs.length ≤ w) (hz : ∀ b ∈ bs, b ≠ 0) :
    trimString (nullpadString bs w) = bs := by
  unfold trimString nullpadString
  rw [List.take_of_length_le hlen]
  exact takeWhile_append_replicate_zero bs _ hz

theorem readUInt32LE_le32 (v : Nat) (h : v < 0x100000000) :
    readUInt32LE (le32 v) = v := by
  simp only [readUInt32LE, le32, List.getD_cons_zero, List.getD_cons_succ]
  omega

theorem readInt32LE_le32 (v : Nat) (h : v < 0x100000000) :
    readInt32LE (le32 v) = asInt32 v := by
  unfold readInt32LE asInt32
  rw [readUInt32LE_le32 v h]

/-! ## Sorting lemmas -/

theorem insertByTime_perm (e : TimeEntry) (l : List TimeEntry) :
    (insertByTime e l).Perm (e :: l) := by
  induction l with
  | nil => exact List.Perm.refl [e]
  | cons x xs ih =>
    unfold insertByTime
    by_cases hc : e.time ≤ x.time
    · rw [if_pos hc]
    · rw [if_neg hc]
      exact (ih.cons x).trans (List.Perm.swap e x xs)

theorem sortByTime_perm (l : List TimeEntry) : (sortByTime l).Perm l := by
  induction l with
  | nil => exact List.Perm.refl []
  | cons x xs ih =>
    unfold sortByTime
    exact (insertByTime_perm x (sortByTime xs)).trans (ih.cons x)

theorem sortByTime_length (l : List TimeEntry) : (sortByTime l).length = l.length :=
  (sortByTime_perm l).length_eq

theorem insertByTime_pairwise (e : TimeEntry) (l : List TimeEntry)
    (h : List.Pairwise (fun a b => a.time ≤ b.time) l) :
    List.Pairwise (fun a b => a.time ≤ b.time) (insertByTime e l) := by
  induction l with
  | nil => simp [insertByTime]
  | cons x xs ih =>
    have hx := List.pairwise_cons.mp h
    unfold insertByTime
    by_cases hc : e.time ≤ x.time
    · rw [if_pos hc]
      refine List.pairwise_cons.mpr ⟨?_, h⟩
      intro b hb
      rcases List.mem_cons.mp hb with rfl | hbxs
      · exact hc
      · exact le_trans hc (hx.1 b hbxs)
    · rw [if_neg hc]
      refine List.pairwise_cons.mpr ⟨?_, ih hx.2⟩
      intro b hb
      have hmem := (insertByTime_perm e xs).mem_iff.mp hb
      rcases List.mem_cons.mp hmem with rfl | hbxs
      · omega
      · exact hx.1 b hbxs

theorem sortByTime_pairwise (l : List TimeEntry) :
    List.Pairwise (fun a b => a.time ≤ b.time) (sortByTime l) := by
  induction l with
  | nil => simp [sortByTime]
  | cons x xs ih =>
    unfold sortByTime
    exact insertByTime_pairwise x _ ih

theorem sortByTime_eq_self (l : List TimeEntry)
    (h : List.Pairwise (fun a b => a.time ≤ b.time) l) : sortByTime l = l := by
  induction l with
  | nil => rfl
  | cons x xs ih =>
    have hx := List.pairwise_cons.mp h
    unfold sortByTime
    rw [ih hx.2]
    cases xs with
    | nil => rfl
    | cons y ys =>
      unfold insertByTime
      rw [if_pos (hx.1 y (by simp))]

/-! ## Parsing back a serialized score half -/

theorem validEntry_props (e : TimeEntry) (h : validEntry e = true) :
    0 ≤ e.time ∧ e.time < 0x100000000 ∧ e.name1.length ≤ 15 ∧ (∀ b ∈ e.name1, b ≠ 0) ∧
      e.name2.length ≤ 15 ∧ (∀ b ∈ e.name2, b ≠ 0) := by
  unfold validEntry validName at h
  simp only [Bool.and_eq_true, decide_eq_true_eq, List.all_eq_true] at h
  obtain ⟨⟨⟨h1, h2⟩, h3, h4⟩, h5, h6⟩ := h
  refine ⟨h1, h2, h3, ?_, h5, ?_⟩ <;> intro b hb
  · have := h4 b hb
    simp only [Bool.and_eq_true, bne_iff_ne, ne_eq] at this
    exact this.1
  · have := h6 b hb
    simp only [Bool.and_eq_true, bne_iff_ne, ne_eq] at this
    exact this.1

theorem parseTop10_write (srt : List TimeEntry) (hvs : ∀ e ∈ srt, validEntry e = true) :
    _parseTop10 (writeTop10Entries (writeBytes (List.replicate 344 0) 0
        (le32 (if 10 ≤ srt.length then 10 else srt.length))) 0 srt)
      = (srt.take 10).map (fun e => { e with time := asInt32 e.time.toNat }) := by
  have hc : (if 10 ≤ srt.length then 10 else srt.length) = min 10 srt.length := by
    split <;> omega
  rw [hc]
  have hbaselen : (writeBytes (List.replicate 344 0) 0
      (le32 (min 10 srt.length))).length = 344 := by
    rw [writeBytes_length _ _ _ (by rw [le32_length, List.length_replicate]; omega),
      List.length_replicate]
  have hbuflen := writeTop10Entries_length srt 0 _ hbaselen
  have hcount : slice (writeTop10Entries (writeBytes (List.replicate 344 0) 0
        (le32 (min 10 srt.length))) 0 srt) 0 4
      = le32 (min 10 srt.length) := by
    rw [slice_writeTop10Entries_disjoint srt 0 _ 0 4 hbaselen
      (fun j hj1 hj2 _ => ⟨Or.inl (by omega), Or.inl (by omega), Or.inl (by omega)⟩)]
    have hs := slice_writeBytes_self (List.replicate 344 0)
      (le32 (min 10 srt.length)) 0
      (by rw [le32_length, List.length_replicate]; omega)
    rw [le32_length] at hs
    exact hs
  unfold _parseTop10
  rw [hcount, readInt32LE_le32 _ (by omega)]
  have hread : (asInt32 (min 10 srt.length)).toNat = min 10 srt.length := by
    unfold asInt32
    rw [if_pos (by omega)]
    exact Int.toNat_natCast _
  rw [hread]
  apply List.ext_getElem
  · simp only [List.length_map, List.length_range, List.length_take]
  · intro i h1 h2
    simp only [List.length_map, List.length_range] at h1
    have hilt : i < srt.length := by omega
    have hi10 : i < 10 := by omega
    have hget := writeTop10Entries_get srt 0 _ i srt[i] hbaselen (by omega)
      (List.getElem?_eq_getElem hilt)
    rw [Nat.zero_add] at hget
    have hprops := validEntry_props srt[i] (hvs srt[i] (List.getElem_mem hilt))
    simp only [List.getElem_map, List.getElem_range, List.getElem_take]
    have hoff1 : 4 + i * 4 = 4 + 4 * i := by omega
    have hoff2 : 44 + i * 15 = 44 + 15 * i := by omega
    have hoff3 : 194 + i * 15 = 194 + 15 * i := by omega
    rw [hoff1, hoff2, hoff3, hget.1, hget.2.1, hget.2.2]
    have hmod : srt[i].time % 0x100000000 = srt[i].time :=
      Int.emod_eq_of_lt hprops.1 hprops.2.1
    rw [hmod, readInt32LE_le32 _ (by omega),
      trimString_nullpadString _ _ hprops.2.2.1 hprops.2.2.2.1,
      trimString_nullpadString _ _ hprops.2.2.2.2.1 hprops.2.2.2.2.2]

theorem parseTop10_top10Half (es : List TimeEntry)
    (hv : ∀ e ∈ es, validEntry e = true) :
    _parseTop10 (top10Half es).2
      = ((sortByTime es).take 10).map (fun e => { e with time := asInt32 e.time.toNat }) := by
  unfold top10Half
  exact parseTop10_write (sortByTime es)
    (fun e he => hv e ((sortByTime_perm es).subset he))

theorem top10Half_fst (es : List TimeEntry) : (top10Half es).1 = sortByTime es := rfl

theorem top10Half_snd (es : List TimeEntry) :
    (top10Half es).2 = writeTop10Entries (writeBytes (List.replicate 344 0) 0
      (le32 (if 10 ≤ (sortByTime es).length then 10 else (sortByTime es).length)))
      0 (sortByTime es) := rfl

theorem top10Half_length (es : List TimeEntry) : (top10Half es).2.length = 344 := by
  rw [top10Half_snd]
  exact writeTop10Entries_length _ 0 _
    (by rw [writeBytes_length _ _ _ (by rw [le32_length, List.length_replicate]; omega),
      List.length_replicate])

theorem slice_replicate_zero (off len : Nat) (h : off + len ≤ 344) :
    slice (List.replicate 344 (0 : Nat)) off len = List.replicate len 0 := by
  unfold slice
  rw [List.drop_replicate, List.take_replicate]
  congr 1
  omega

theorem top10Half_count_slice (es : List TimeEntry) :
    slice (top10Half es).2 0 4 = le32 (min 10 es.length) := by
  rw [top10Half_snd]
  have hbaselen : (writeBytes (List.replicate 344 0) 0
      (le32 (if 10 ≤ (sortByTime es).length then 10 else (sortByTime es).length))).length
        = 344 := by
    rw [writeBytes_length _ _ _ (by rw [le32_length, List.length_replicate]; omega),
      List.length_replicate]
  rw [slice_writeTop10Entries_disjoint _ 0 _ 0 4 hbaselen
    (fun j hj1 hj2 _ => ⟨Or.inl (by omega), Or.inl (by omega), Or.inl (by omega)⟩)]
  have hs := slice_writeBytes_self (List.replicate 344 0)
    (le32 (if 10 ≤ (sortByTime es).length then 10 else (sortByTime es).length)) 0
    (by rw [le32_length, List.length_replicate]; omega)
  rw [le32_length] at hs
  rw [hs]
  have hsl := sortByTime_length es
  congr 1
  split <;> omega

theorem top10Half_zero_fill (es : List TimeEntry) (i : Nat)
    (hge : es.length ≤ i) (hlt : i < 10) :
    slice (top10Half es).2 (4 + 4 * i) 4 = List.replicate 4 0 ∧
      slice (top10Half es).2 (44 + 15 * i) 15 = List.replicate 15 0 ∧
      slice (top10Half es).2 (194 + 15 * i) 15 = List.replicate 15 0 := by
  rw [top10Half_snd]
  have hsl := sortByTime_length es
  have hbaselen : (writeBytes (List.replicate 344 0) 0
      (le32 (if 10 ≤ (sortByTime es).length then 10 else (sortByTime es).length))).length
        = 344 := by
    rw [writeBytes_length _ _ _ (by rw [le32_length, List.length_replicate]; omega),
      List.length_replicate]
  have hafter : ∀ off len : Nat, 4 ≤ off → off + len ≤ 344 →
      slice (writeBytes (List.replicate 344 0) 0
        (le32 (if 10 ≤ (sortByTime es).length then 10 else (sortByTime es).length)))
        off len = List.replicate len 0 := by
    intro off len h4 hol
    rw [slice_writeBytes_after _ _ _ _ _ (by rw [le32_length]; omega)
      (by rw [le32_length, List.length_replicate]; omega)]
    exact slice_replicate_zero off len hol
  refine ⟨?_, ?_, ?_⟩
  · rw [slice_writeTop10Entries_disjoint _ 0 _ _ _ hbaselen
      (fun j hj1 hj2 hj3 => ⟨by omega, by omega, by omega⟩)]
    exact hafter _ _ (by omega) (by omega)
  · rw [slice_writeTop10Entries_disjoint _ 0 _ _ _ hbaselen
      (fun j hj1 hj2 hj3 => ⟨by omega, by omega, by omega⟩)]
    exact hafter _ _ (by omega) (by omega)
  · rw [slice_writeTop10Entries_disjoint _ 0 _ _ _ hbaselen
      (fun j hj1 hj2 hj3 => ⟨by omega, by omega, by omega⟩)]
    exact hafter _ _ (by omega) (by omega)

theorem top10Half_slot (es : List TimeEntry) (i : Nat) (e : TimeEntry)
    (hv : ∀ x ∈ es, validEntry x = true)
    (hi : (top10Half es).1[i]? = some e) (h10 : i < 10) :
    slice (top10Half es).2 (4 + 4 * i) 4 = le32 e.time.toNat ∧
      slice (top10Half es).2 (44 + 15 * i) 15 = nullpadString e.name1 15 ∧
      slice (top10Half es).2 (194 + 15 * i) 15 = nullpadString e.name2 15 := by
  rw [top10Half_fst] at hi
  rw [top10Half_snd]
  have hbaselen : (writeBytes (List.replicate 344 0) 0
      (le32 (if 10 ≤ (sortByTime es).length then 10 else (sortByTime es).length))).length
        = 344 := by
    rw [writeBytes_length _ _ _ (by rw [le32_length, List.length_replicate]; omega),
      List.length_replicate]
  have hget := writeTop10Entries_get (sortByTime es) 0 _ i e hbaselen (by omega) hi
  rw [Nat.zero_add] at hget
  have hmem : e ∈ sortByTime es := by
    rcases List.getElem?_eq_some_iff.mp hi with ⟨hlen, hval⟩
    exact hval ▸ List.getElem_mem hlen
  have hprops := validEntry_props e (hv e ((sortByTime_perm es).subset hmem))
  have hmod : e.time % 0x100000000 = e.time := Int.emod_eq_of_lt hprops.1 hprops.2.1
  rw [hmod] at hget
  exact hget

/-- C5: on encode, each score list is sorted ascending by `time` with ties
preserving input order (the model's `sortByTime` is the stable ascending
sort, which is what the ECMAScript-stable `Array.prototype.sort` with the
source's comparator produces), its entries are a permutation of the input;
the written 344-byte half carries the kept-entry count `min 10 length` at
offset 0, each kept entry's time/name1/name2 in its positional slot, and
all unused trailing slots zero-filled; and parsing the half back yields
exactly the 10 lowest times in ascending order (`take 10` of the sorted
list) — so 15 entries decode back to the 10 lowest, ascending. -/
theorem top10Half_encode_spec (es : List TimeEntry)
    (hv : ∀ e ∈ es, validEntry e = true)
    (hsmall : ∀ e ∈ es, e.time < 0x80000000) :
    List.Pairwise (fun a b => a.time ≤ b.time) (top10Half es).1 ∧
      ((top10Half es).1).Perm es ∧
      (top10Half es).2.length = 344 ∧
      slice (top10Half es).2 0 4 = le32 (min 10 es.length) ∧
      (∀ i e, (top10Half es).1[i]? = some e → i < 10 →
        slice (top10Half es).2 (4 + 4 * i) 4 = le32 e.time.toNat ∧
        slice (top10Half es).2 (44 + 15 * i) 15 = nullpadString e.name1 15 ∧
        slice (top10Half es).2 (194 + 15 * i) 15 = nullpadString e.name2 15) ∧
      (∀ i, es.length ≤ i → i < 10 →
        slice (top10Half es).2 (4 + 4 * i) 4 = List.replicate 4 0 ∧
        slice (top10Half es).2 (44 + 15 * i) 15 = List.replicate 15 0 ∧
        slice (top10Half es).2 (194 + 15 * i) 15 = List.replicate 15 0) ∧
      _parseTop10 (top10Half es).2 = ((top10Half es).1).take 10 := by
  refine ⟨top10Half_fst es ▸ sortByTime_pairwise es,
    top10Half_fst es ▸ sortByTime_perm es,
    top10Half_length es,
    top10Half_count_slice es,
    fun i e hi h10 => top10Half_slot es i e hv hi h10,
    fun i hge hlt => top10Half_zero_fill es i hge hlt,
    ?_⟩
  rw [parseTop10_top10Half es hv, top10Half_fst]
  have hid : ∀ e ∈ (sortByTime es).take 10,
      ({ e with time := asInt32 e.time.toNat } : TimeEntry) = e := by
    intro e he
    have hmem : e ∈ es :=
      (sortByTime_perm es).subset (List.take_subset _ _ he)
    have hprops := validEntry_props e (hv e hmem)
    have hsm := hsmall e hmem
    unfold asInt32
    rw [if_pos (by omega), Int.toNat_of_nonneg hprops.1]
  rw [List.map_congr_left hid, List.map_id']

theorem top10Half_encode_spec_witness :
    (∀ e ∈ sampleEntries, validEntry e = true) ∧
      (∀ e ∈ sampleEntries, e.time < 0x80000000) ∧
      (List.Pairwise (fun a b => a.time ≤ b.time) (top10Half sampleEntries).1 ∧
        ((top10Half sampleEntries).1).Perm sampleEntries ∧
        (top10Half sampleEntries).2.length = 344 ∧
        slice (top10Half sampleEntries).2 0 4 = le32 (min 10 sampleEntries.length) ∧
        (∀ i e, (top10Half sampleEntries).1[i]? = some e → i < 10 →
          slice (top10Half sampleEntries).2 (4 + 4 * i) 4 = le32 e.time.toNat ∧
          slice (top10Half sampleEntries).2 (44 + 15 * i) 15 = nullpadString e.name1 15 ∧
          slice (top10Half sampleEntries).2 (194 + 15 * i) 15 = nullpadString e.name2 15) ∧
        (∀ i, sampleEntries.length ≤ i → i < 10 →
          slice (top10Half sampleEntries).2 (4 + 4 * i) 4 = List.replicate 4 0 ∧
          slice (top10Half sampleEntries).2 (44 + 15 * i) 15 = List.replicate 15 0 ∧
          slice (top10Half sampleEntries).2 (194 + 15 * i) 15 = List.replicate 15 0) ∧
        _parseTop10 (top10Half sampleEntries).2 = ((top10Half sampleEntries).1).take 10) :=
  ⟨by decide, by decide, top10Half_encode_spec sampleEntries (by decide) (by decide)⟩

/-- C10: score times are written by the encoder as unsigned little-endian
32-bit integers (`writeUInt32LE`) but read back by `_parseTop10` as signed
32-bit (`readInt32LE`), so an entry whose time is at least `2^31`
round-trips through a score half to the negative value `time - 2^32`
rather than the uint32 the data model declares. -/
theorem top10_time_sign_flip (t : Int) (n1 n2 : List Nat)
    (hlo : 0x80000000 ≤ t) (hhi : t < 0x100000000)
    (hn1 : validName n1 15 = true) (hn2 : validName n2 15 = true) :
    _parseTop10 (top10Half [⟨t, n1, n2⟩]).2 = [⟨t - 0x100000000, n1, n2⟩] ∧
      t - 0x100000000 < 0 := by
  have hv : ∀ e ∈ [(⟨t, n1, n2⟩ : TimeEntry)], validEntry e = true := by
    intro e he
    simp only [List.mem_singleton] at he
    subst he
    unfold validEntry
    simp only [Bool.and_eq_true, decide_eq_true_eq]
    exact ⟨⟨⟨by omega, by omega⟩, hn1⟩, hn2⟩
  refine ⟨?_, by omega⟩
  rw [parseTop10_top10Half _ hv]
  show [({ time := asInt32 t.toNat, name1 := n1, name2 := n2 } : TimeEntry)] = _
  simp only [List.cons.injEq, and_true, TimeEntry.mk.injEq]
  unfold asInt32
  rw [if_neg (by omega)]
  omega

theorem top10_time_sign_flip_witness :
    ((0x80000000 : Int) ≤ 0x80000000) ∧ ((0x80000000 : Int) < 0x100000000) ∧
      validName [65] 15 = true ∧ validName [66] 15 = true ∧
      (_parseTop10 (top10Half [⟨0x80000000, [65], [66]⟩]).2
          = [⟨(0x80000000 : Int) - 0x100000000, [65], [66]⟩] ∧
        (0x80000000 : Int) - 0x100000000 < 0) :=
  ⟨le_refl _, by decide, by decide, by decide,
    top10_time_sign_flip 0x80000000 [65] [66] (le_refl _) (by decide) (by decide) (by decide)⟩

/-! ## Cell-reader evaluation lemmas -/

theorem pbind_ok {α β : Type} {g : CellReader α} {h : α → CellReader β} {cs cs1 : List Cell}
    {a : α} (hg : g cs = .ok (a, cs1)) : pbind g h cs = h a cs1 := by
  unfold pbind
  rw [hg]

theorem validName_props (bs : List Nat) (w : Nat) (h : validName bs w = true) :
    bs.length ≤ w ∧ ∀ b ∈ bs, b ≠ 0 := by
  unfold validName at h
  simp only [Bool.and_eq_true, decide_eq_true_eq, List.all_eq_true] at h
  refine ⟨h.1, fun b hb => ?_⟩
  have := h.2 b hb
  simp only [Bool.and_eq_true, bne_iff_ne, ne_eq] at this
  exact this.1

theorem cryptTop10_cryptTop10 (x : List Nat) : cryptTop10 (cryptTop10 x) = x :=
  cryptBytes_cryptBytes x _ _

theorem parseVertices_write (vs : List Point) : ∀ rest,
    parseVertices vs.length (writeVertexCells vs ++ rest) = .ok (vs, rest) := by
  induction vs with
  | nil => intro rest; rfl
  | cons v tl ih =>
    intro rest
    show parseVertices (tl.length + 1)
      (Cell.f64 v.x :: Cell.f64 v.y :: (writeVertexCells tl ++ rest)) = _
    unfold parseVertices
    rw [pbind_ok rfl, pbind_ok rfl, pbind_ok (ih rest)]
    rfl

theorem parsePolygons_write (ps : List Polygon) : ∀ rest,
    parsePolygons ps.length (writePolygonCells ps ++ rest) = .ok (ps, rest) := by
  induction ps with
  | nil => intro rest; rfl
  | cons p tl ih =>
    intro rest
    show parsePolygons (tl.length + 1)
      (Cell.i32 (if p.grass then 1 else 0) :: Cell.i32 (p.vertices.length : Int)
        :: ((writeVertexCells p.vertices ++ writePolygonCells tl) ++ rest)) = _
    unfold parsePolygons
    rw [pbind_ok rfl, pbind_ok rfl, List.append_assoc, Int.toNat_natCast,
      pbind_ok (parseVertices_write p.vertices _), pbind_ok (ih rest)]
    have hgr : ((if p.grass then (1 : Int) else 0) != 0) = p.grass := by
      by_cases hg : p.grass
      · rw [hg]; rfl
      · have hg' : p.grass = false := by simpa using hg
        rw [hg']; rfl
    rw [hgr]
    rfl

theorem parseObject_write (o : LevObject) : ∀ rest,
    parseObject (objectCells o ++ rest) = .ok (o, rest) := by
  intro rest
  obtain ⟨x, y, k⟩ := o
  cases k with
  | exit => rfl
  | killer => rfl
  | start => rfl
  | apple g a =>
    cases g <;>
      simp [parseObject, objectCells, gravityCode, pbind, pret, readDouble, readInt32]

theorem parseObjects_write (os : List LevObject) : ∀ rest,
    parseObjects os.length (writeObjectCells os ++ rest) = .ok (os, rest) := by
  induction os with
  | nil => intro rest; rfl
  | cons o tl ih =>
    intro rest
    show parseObjects (tl.length + 1) ((objectCells o ++ writeObjectCells tl) ++ rest) = _
    unfold parseObjects
    rw [List.append_assoc, pbind_ok (parseObject_write o _), pbind_ok (ih rest)]
    rfl

theorem validPicture_props (p : Picture) (h : validPicture p = true) :
    validName p.name 10 = true ∧ validName p.texture 10 = true ∧
      validName p.mask 10 = true := by
  unfold validPicture at h
  simp only [Bool.and_eq_true] at h
  exact ⟨h.1.1.1.1, h.1.1.1.2, h.1.1.2⟩

theorem parsePicture_write (p : Picture) (hv : validPicture p = true) (rest : List Cell) :
    parsePicture (pictureCells p ++ rest) = .ok (p, rest) := by
  obtain ⟨hn, ht, hm⟩ := validPicture_props p hv
  have hn' := validName_props _ _ hn
  have ht' := validName_props _ _ ht
  have hm' := validName_props _ _ hm
  obtain ⟨nm, tx, mk, x, y, d, c⟩ := p
  unfold parsePicture pictureCells
  rw [pbind_ok rfl, pbind_ok rfl, pbind_ok rfl, pbind_ok rfl, pbind_ok rfl,
    pbind_ok rfl, pbind_ok rfl]
  cases c <;>
    simp only [clipCode] <;>
    simp [pret, trimString_nullpadString _ _ hn'.1 hn'.2,
      trimString_nullpadString _ _ ht'.1 ht'.2,
      trimString_nullpadString _ _ hm'.1 hm'.2]

theorem parsePictures_write (ps : List Picture) (hv : ∀ p ∈ ps, validPicture p = true) :
    ∀ rest, parsePictures ps.length (writePictureCells ps ++ rest) = .ok (ps, rest) := by
  induction ps with
  | nil => intro rest; rfl
  | cons p tl ih =>
    intro rest
    show parsePictures (tl.length + 1) ((pictureCells p ++ writePictureCells tl) ++ rest) = _
    unfold parsePictures
    rw [List.append_assoc, pbind_ok (parsePicture_write p (hv p (by simp)) _),
      pbind_ok (ih (fun q hq => hv q (by simp [hq])) rest)]
    rfl

theorem parseDoubles_write (qs : List ℚ) : ∀ rest,
    parseDoubles qs.length (qs.map Cell.f64 ++ rest) = .ok (qs, rest) := by
  induction qs with
  | nil => intro rest; rfl
  | cons q tl ih =>
    intro rest
    show parseDoubles (tl.length + 1) (Cell.f64 q :: (tl.map Cell.f64 ++ rest)) = _
    unfold parseDoubles
    rw [pbind_ok rfl, pbind_ok (ih rest)]
    rfl

theorem loopCount_natCast_bias (n : Nat) (c : ℚ) : loopCount ((n : ℚ) + c - c) = n := by
  unfold loopCount
  have h : ((n : ℚ) + c - c) = (n : ℚ) := by ring
  rw [h, Int.ceil_natCast, Int.toNat_natCast]

theorem parseTop10_top10Half_small (es : List TimeEntry)
    (hv : ∀ e ∈ es, validEntry e = true)
    (hsmall : ∀ e ∈ es, e.time < 0x80000000) :
    _parseTop10 (top10Half es).2 = (sortByTime es).take 10 := by
  rw [parseTop10_top10Half es hv]
  have hid : ∀ e ∈ (sortByTime es).take 10,
      ({ e with time := asInt32 e.time.toNat } : TimeEntry) = e := by
    intro e he
    have hmem : e ∈ es :=
      (sortByTime_perm es).subset (List.take_subset _ _ he)
    have hprops := validEntry_props e (hv e hmem)
    have hsm := hsmall e hmem
    unfold asInt32
    rw [if_pos (by omega), Int.toNat_of_nonneg hprops.1]
  rw [List.map_congr_left hid, List.map_id']

theorem tag_across_false : (elmaTag = acrossTag) = False := by
  simp [elmaTag, acrossTag]

theorem tag_self_ne_false : (elmaTag ≠ elmaTag) = False := by
  simp

theorem parseLevelFinish_encode (link : Nat) (integ : List ℚ)
    (name lgr ground sky : List Nat) (ps : List Polygon) (os : List LevObject)
    (pics : List Picture) (topBytes : List Nat) (rest : List Cell) :
    parseLevelFinish link integ name lgr ground sky ps os pics
      (Cell.i32 EOD_MARKER :: Cell.raw topBytes :: Cell.i32 EOF_MARKER :: rest)
      = .ok ({ version := elmaVersion, link := link, integrity := integ, lgr := trimString lgr, name := trimString name, ground := trimString ground, sky := trimString sky, polygons := ps, objects := os, pictures := pics, top10 := ⟨_parseTop10 (slice (cryptTop10 topBytes) 0 344), _parseTop10 ((cryptTop10 topBytes).drop 344)⟩ }, rest) := by
  simp only [parseLevelFinish, pbind, readInt32, readRaw, pret, ne_eq,
    eq_self_iff_true, not_true_eq_false, ite_false, if_false]

theorem parseLevelSections_encode (link : Nat) (integ : List ℚ)
    (name lgr ground sky : List Nat) (ps : List Polygon) (os : List LevObject)
    (pics : List Picture) (hpics : ∀ p ∈ pics, validPicture p = true) :
    ∀ rest, parseLevelSections link integ name lgr ground sky
      (Cell.f64 ((ps.length : ℚ) + 0.4643643) :: (writePolygonCells ps ++ (Cell.f64 ((os.length : ℚ) + 0.4643643) :: (writeObjectCells os ++ (Cell.f64 ((pics.length : ℚ) + 0.2345672) :: (writePictureCells pics ++ rest))))))
      = parseLevelFinish link integ name lgr ground sky ps os pics rest := by
  intro rest
  unfold parseLevelSections
  rw [pbind_ok rfl, loopCount_natCast_bias, pbind_ok (parsePolygons_write ps _),
    pbind_ok rfl, loopCount_natCast_bias, pbind_ok (parseObjects_write os _),
    pbind_ok rfl, loopCount_natCast_bias, pbind_ok (parsePictures_write pics hpics _)]

/-- The core decode-of-encode fact, with the integrity tuple abstracted
to any 4-element list and no sortedness or length cap assumed on the
score lists: the decoded level agrees with the input everywhere except
that its `integrity` is the encoded tuple and its score lists come back
sorted and truncated to the 10 best. -/
theorem parseLevel_encodeCells (l : Level) (integ : List ℚ) (hi4 : integ.length = 4)
    (hv : validLevel l = true)
    (hs1 : ∀ e ∈ l.top10.single, e.time < 0x80000000)
    (hs2 : ∀ e ∈ l.top10.multi, e.time < 0x80000000) :
    parseLevel (encodeCells l integ (_top10ToBuffer l.top10).2)
      = .ok ({ l with integrity := integ, top10 := ⟨(sortByTime l.top10.single).take 10, (sortByTime l.top10.multi).take 10⟩ }, []) := by
  unfold validLevel at hv
  simp only [Bool.and_eq_true, decide_eq_true_eq] at hv
  obtain ⟨⟨⟨⟨⟨⟨⟨⟨⟨⟨hver, hlink⟩, hname⟩, hlgr⟩, hground⟩, hsky⟩, hpoly⟩, hobj⟩,
    hpic⟩, hts⟩, htm⟩ := hv
  have hname' := validName_props _ _ hname
  have hlgr' := validName_props _ _ hlgr
  have hground' := validName_props _ _ hground
  have hsky' := validName_props _ _ hsky
  have hpd : ∀ rest, parseDoubles 4 (integ.map Cell.f64 ++ rest) = .ok (integ, rest) := by
    intro rest
    rw [← hi4]
    exact parseDoubles_write integ rest
  have hpicAll : ∀ p ∈ l.pictures, validPicture p = true := by
    simp only [List.all_eq_true] at hpic
    exact hpic
  have htsAll : ∀ e ∈ l.top10.single, validEntry e = true := by
    simp only [List.all_eq_true] at hts
    exact hts
  have htmAll : ∀ e ∈ l.top10.multi, validEntry e = true := by
    simp only [List.all_eq_true] at htm
    exact htm
  have hpp := parsePictures_write l.pictures hpicAll
  have hsplit1 : slice ((top10Half l.top10.single).2 ++ (top10Half l.top10.multi).2) 0 344
      = (top10Half l.top10.single).2 := by
    unfold slice
    rw [List.drop_zero, List.take_left' (top10Half_length _)]
  have hsplit2 : ((top10Half l.top10.single).2 ++ (top10Half l.top10.multi).2).drop 344
      = (top10Half l.top10.multi).2 := List.drop_left' (top10Half_length _)
  have hp1 := parseTop10_top10Half_small l.top10.single htsAll hs1
  have hp2 := parseTop10_top10Half_small l.top10.multi htmAll hs2
  have ht10 : cryptTop10 ((_top10ToBuffer l.top10).2)
      = (top10Half l.top10.single).2 ++ (top10Half l.top10.multi).2 := by
    simp only [_top10ToBuffer]
    exact cryptTop10_cryptTop10 _
  unfold parseLevel parseLevelAfterTag encodeCells
  rw [pbind_ok rfl, if_neg (show ¬(elmaTag = acrossTag) by decide),
    if_neg (show ¬(elmaTag ≠ elmaTag) by simp),
    pbind_ok rfl, pbind_ok rfl, pbind_ok (hpd _), pbind_ok rfl, pbind_ok rfl,
    pbind_ok rfl, pbind_ok rfl,
    parseLevelSections_encode l.link integ (nullpadString l.name 51)
      (nullpadString l.lgr 16) (nullpadString l.ground 10) (nullpadString l.sky 10)
      l.polygons l.objects l.pictures hpicAll,
    parseLevelFinish_encode]
  rw [trimString_nullpadString _ _ hname'.1 hname'.2,
    trimString_nullpadString _ _ hlgr'.1 hlgr'.2,
    trimString_nullpadString _ _ hground'.1 hground'.2,
    trimString_nullpadString _ _ hsky'.1 hsky'.2, ht10, hsplit1, hsplit2, hp1, hp2, hver]

theorem sortedByTime_pairwise_of (es : List TimeEntry) (h : sortedByTime es = true) :
    List.Pairwise (fun a b => a.time ≤ b.time) es := by
  induction es with
  | nil => simp
  | cons a tl ih =>
    cases tl with
    | nil => simp
    | cons b t =>
      unfold sortedByTime at h
      simp only [Bool.and_eq_true, decide_eq_true_eq] at h
      have hp := ih h.2
      refine List.pairwise_cons.mpr ⟨?_, hp⟩
      intro x hx
      rcases List.mem_cons.mp hx with rfl | hxt
      · exact h.1
      · have hbx := (List.pairwise_cons.mp hp).1 x hxt
        omega

theorem parseFile_of_parseLevel {cs : List Cell} {lvl : Level}
    (h : parseLevel cs = .ok (lvl, [])) : _parseFile cs = .ok lvl := by
  unfold _parseFile
  rw [h]

/-- C1 (amended): for a validly constructed level whose two score lists
are additionally sorted ascending by time, have at most 10 entries, and
contain only times below `2^31`, decoding the encoded buffer yields a
level equal to the original in every field — polygons, objects
(including apple gravity and 1-based animation frames), pictures,
strings, link, version and both score tables — except `integrity`, which
becomes the deterministically recomputed tuple for the given random
draws.  (The extra hypotheses are forced: the encoder sorts and caps the
score lists at 10 on write, and times at or above `2^31` decode to
negative values.) -/
theorem decode_encode_roundtrip (l : Level) (r1 r2 r3 : Nat)
    (hv : validLevel l = true)
    (hsort1 : sortedByTime l.top10.single = true)
    (hsort2 : sortedByTime l.top10.multi = true)
    (hcap1 : l.top10.single.length ≤ 10) (hcap2 : l.top10.multi.length ≤ 10)
    (hsmall1 : ∀ e ∈ l.top10.single, e.time < 0x80000000)
    (hsmall2 : ∀ e ∈ l.top10.multi, e.time < 0x80000000) :
    ∃ lm cells, _update l r1 r2 r3 = .ok (lm, cells) ∧
      _parseFile cells = .ok { l with integrity := _calculateIntegrity l r1 r2 r3 } := by
  have hver : l.version = elmaVersion := by
    unfold validLevel at hv
    simp only [Bool.and_eq_true, decide_eq_true_eq] at hv
    exact hv.1.1.1.1.1.1.1.1.1.1
  refine ⟨{ l with integrity := _calculateIntegrity l r1 r2 r3, top10 := (_top10ToBuffer l.top10).1 }, encodeCells l (_calculateIntegrity l r1 r2 r3) (_top10ToBuffer l.top10).2, ?_, ?_⟩
  · unfold _update
    rw [if_neg (by simp [hver])]
  · have hmaster := parseLevel_encodeCells l (_calculateIntegrity l r1 r2 r3) rfl hv hsmall1 hsmall2
    rw [sortByTime_eq_self _ (sortedByTime_pairwise_of _ hsort1),
      sortByTime_eq_self _ (sortedByTime_pairwise_of _ hsort2),
      List.take_of_length_le hcap1, List.take_of_length_le hcap2] at hmaster
    exact parseFile_of_parseLevel hmaster

theorem decode_encode_roundtrip_witness :
    validLevel sampleLevel = true ∧ sortedByTime sampleLevel.top10.single = true ∧
      sortedByTime sampleLevel.top10.multi = true ∧
      sampleLevel.top10.single.length ≤ 10 ∧ sampleLevel.top10.multi.length ≤ 10 ∧
      (∀ e ∈ sampleLevel.top10.single, e.time < 0x80000000) ∧
      (∀ e ∈ sampleLevel.top10.multi, e.time < 0x80000000) ∧
      (∃ lm cells, _update sampleLevel 1 2 3 = .ok (lm, cells) ∧
        _parseFile cells = .ok { sampleLevel with integrity := _calculateIntegrity sampleLevel 1 2 3 }) :=
  ⟨by decide, by decide, by decide, by decide, by decide, by decide, by decide,
    decode_encode_roundtrip sampleLevel 1 2 3 (by decide) (by decide) (by decide)
      (by decide) (by decide) (by decide) (by decide)⟩

/-- C1 counterexample: a validly constructed level whose single-player
score list is stored out of time order does not round-trip — the decoded
level's score list comes back sorted, differing from the original. -/
theorem decode_encode_roundtrip_counterexample :
    validLevel unsortedLevel = true ∧
      (∀ e ∈ unsortedLevel.top10.single, e.time < 0x80000000) ∧
      (∃ lm cells dl, _update unsortedLevel 0 0 0 = .ok (lm, cells) ∧
        _parseFile cells = .ok dl ∧ dl.top10.single ≠ unsortedLevel.top10.single) := by
  refine ⟨by decide, by decide, ?_⟩
  refine ⟨{ unsortedLevel with integrity := _calculateIntegrity unsortedLevel 0 0 0, top10 := (_top10ToBuffer unsortedLevel.top10).1 }, encodeCells unsortedLevel (_calculateIntegrity unsortedLevel 0 0 0) (_top10ToBuffer unsortedLevel.top10).2, { unsortedLevel with integrity := _calculateIntegrity unsortedLevel 0 0 0, top10 := ⟨(sortByTime unsortedLevel.top10.single).take 10, (sortByTime unsortedLevel.top10.multi).take 10⟩ }, ?_, ?_, ?_⟩
  · unfold _update
    rw [if_neg (by decide)]
  · exact parseFile_of_parseLevel (parseLevel_encodeCells unsortedLevel
      (_calculateIntegrity unsortedLevel 0 0 0) rfl (by decide) (by decide) (by decide))
  · decide

/-- C7 (amended): a successful encode leaves every field of the level
unchanged — polygons, objects, pictures, strings, link, version — except
that `integrity` is recomputed and both score-table lists are sorted
ascending by time in place (each remaining a permutation of its original
entries, untruncated). -/
theorem update_mutation (l : Level) (r1 r2 r3 : Nat)
    (hver : l.version = elmaVersion) :
    ∃ lm cells, _update l r1 r2 r3 = .ok (lm, cells) ∧
      lm.version = l.version ∧ lm.link = l.link ∧ lm.name = l.name ∧ lm.lgr = l.lgr ∧
      lm.ground = l.ground ∧ lm.sky = l.sky ∧ lm.polygons = l.polygons ∧
      lm.objects = l.objects ∧ lm.pictures = l.pictures ∧
      lm.integrity = _calculateIntegrity l r1 r2 r3 ∧
      lm.top10.single = sortByTime l.top10.single ∧
      lm.top10.multi = sortByTime l.top10.multi ∧
      (lm.top10.single).Perm l.top10.single ∧
      (lm.top10.multi).Perm l.top10.multi := by
  refine ⟨{ l with integrity := _calculateIntegrity l r1 r2 r3, top10 := (_top10ToBuffer l.top10).1 }, encodeCells l (_calculateIntegrity l r1 r2 r3) (_top10ToBuffer l.top10).2, ?_, rfl, rfl, rfl, rfl, rfl, rfl, rfl, rfl, rfl, rfl, rfl, rfl, ?_, ?_⟩
  · unfold _update
    rw [if_neg (by simp [hver])]
  · exact sortByTime_perm l.top10.single
  · exact sortByTime_perm l.top10.multi

theorem update_mutation_witness :
    sampleLevel.version = elmaVersion ∧
      (∃ lm cells, _update sampleLevel 3 4 5 = .ok (lm, cells) ∧
        lm.version = sampleLevel.version ∧ lm.link = sampleLevel.link ∧
        lm.name = sampleLevel.name ∧ lm.lgr = sampleLevel.lgr ∧
        lm.ground = sampleLevel.ground ∧ lm.sky = sampleLevel.sky ∧
        lm.polygons = sampleLevel.polygons ∧ lm.objects = sampleLevel.objects ∧
        lm.pictures = sampleLevel.pictures ∧
        lm.integrity = _calculateIntegrity sampleLevel 3 4 5 ∧
        lm.top10.single = sortByTime sampleLevel.top10.single ∧
        lm.top10.multi = sortByTime sampleLevel.top10.multi ∧
        (lm.top10.single).Perm sampleLevel.top10.single ∧
        (lm.top10.multi).Perm sampleLevel.top10.multi) :=
  ⟨rfl, update_mutation sampleLevel 3 4 5 rfl⟩

/-- C7 counterexample: encoding a level whose single-player score list is
out of time order changes that list — the mutated level returned by
`_update` holds the sorted list, not the original one, so encoding is
not mutation-free on the score tables. -/
theorem objTypeVal_eq_kindWeight (k : ObjectKind) : objTypeVal k = kindWeight k := by
  cases k <;> rfl

theorem foldl_add_eq_sum {α : Type} (g : ℚ → α → ℚ) (f : α → ℚ)
    (hg : ∀ a x, g a x = a + f x) (l : List α) :
    ∀ c : ℚ, l.foldl g c = c + (l.map f).sum := by
  induction l with
  | nil => intro c; simp
  | cons x tl ih =>
    intro c
    rw [List.foldl_cons, ih, hg, List.map_cons, List.sum_cons]
    ring

/-- C6 (amended): the integrity deriver computes
`base = specGeometrySum * 3247.764325643` with the spec's geometry sum
and kind weights (Exit=1, Apple=2, Killer=3, Start=4), and sets
`integrity = [base, c1, c2, c3]` with each complement a uniform draw
plus an offset minus base — but using only TWO distinct (range, offset)
pairs: `[0, 5871) + 11877` for both the first and second complements,
and `[0, 6102) + 12112` for the third, with three independent draws. -/
theorem calculateIntegrity_spec (l : Level) (r1 r2 r3 : Nat)
    (_h1 : r1 < 5871) (_h2 : r2 < 5871) (_h3 : r3 < 6102) :
    _calculateIntegrity l r1 r2 r3
      = [specGeometrySum l * 3247.764325643,
        (r1 : ℚ) + 11877 - specGeometrySum l * 3247.764325643,
        (r2 : ℚ) + 11877 - specGeometrySum l * 3247.764325643,
        (r3 : ℚ) + 12112 - specGeometrySum l * 3247.764325643] := by
  unfold _calculateIntegrity specGeometrySum
  rw [foldl_add_eq_sum _ (fun p => ((p.vertices.map (fun v => v.x + v.y)).sum : ℚ))
      (fun a p => by rw [foldl_add_eq_sum _ (fun v => v.x + v.y) (fun b v => by ring)
        p.vertices 0, zero_add]) l.polygons 0,
    foldl_add_eq_sum _ (fun o => o.x + o.y + kindWeight o.type)
      (fun a o => by rw [objTypeVal_eq_kindWeight]; ring) l.objects 0,
    foldl_add_eq_sum _ (fun p => p.x + p.y) (fun a p => by ring) l.pictures 0]
  simp only [zero_add]

theorem calculateIntegrity_spec_witness :
    (100 : Nat) < 5871 ∧ (200 : Nat) < 5871 ∧ (300 : Nat) < 6102 ∧
      _calculateIntegrity sampleLevel 100 200 300
        = [specGeometrySum sampleLevel * 3247.764325643,
          (100 : ℚ) + 11877 - specGeometrySum sampleLevel * 3247.764325643,
          (200 : ℚ) + 11877 - specGeometrySum sampleLevel * 3247.764325643,
          (300 : ℚ) + 12112 - specGeometrySum sampleLevel * 3247.764325643] :=
  ⟨by decide, by decide, by decide,
    calculateIntegrity_spec sampleLevel 100 200 300 (by decide) (by decide) (by decide)⟩

/-- C6 counterexample: the claim's "three distinct (range, offset)
pairs" is false — the first and second complements are produced by the
same `[0, 5871) + 11877` pair, so swapping a draw between positions 1
and 2 yields identical complements at a concrete level. -/
theorem calculateIntegrity_pairs_counterexample :
    (_calculateIntegrity sampleLevel 4444 0 0).get? 1
      = (_calculateIntegrity sampleLevel 0 4444 0).get? 2 ∧ (4444 : Nat) < 5871 :=
  ⟨rfl, by decide⟩

theorem pbind_err {α β : Type} {g : CellReader α} {h : α → CellReader β} {cs : List Cell}
    {e : DecodeError} (hg : g cs = .error e) : pbind g h cs = .error e := by
  unfold pbind
  rw [hg]

theorem parseFile_err {cs : List Cell} {e : DecodeError}
    (h : parseLevel cs = .error e) : _parseFile cs = .error e := by
  unfold _parseFile
  rw [h]

theorem loopCount_bias_self (c : ℚ) : loopCount (c - c) = 0 := by
  unfold loopCount
  rw [sub_self]
  simp

theorem parseTop10_slice_zeros : _parseTop10 (slice (List.replicate 688 0) 0 344) = [] := by
  rfl

theorem parseTop10_drop_zeros : _parseTop10 ((List.replicate 688 0).drop 344) = [] := by
  rfl

theorem parseLevel_countProbe (q : ℚ) (ps : List Polygon)
    (hn : ps.length = loopCount (q - 0.4643643)) :
    parseLevel (countProbeCells q ps)
      = .ok ({ version := elmaVersion, link := 0, integrity := [0, 0, 0, 0], lgr := [], name := [], ground := [], sky := [], polygons := ps, objects := [], pictures := [], top10 := ⟨[], []⟩ }, []) := by
  unfold countProbeCells parseLevel parseLevelAfterTag
  rw [pbind_ok rfl, if_neg (by decide), if_neg (by simp), pbind_ok rfl, pbind_ok rfl,
    pbind_ok rfl, pbind_ok rfl, pbind_ok rfl, pbind_ok rfl, pbind_ok rfl]
  unfold parseLevelSections
  rw [pbind_ok rfl, ← hn, pbind_ok (parsePolygons_write ps _), pbind_ok rfl,
    loopCount_bias_self, pbind_ok rfl, pbind_ok rfl, loopCount_bias_self, pbind_ok rfl,
    parseLevelFinish_encode, cryptTop10_cryptTop10, parseTop10_slice_zeros,
    parseTop10_drop_zeros]
  rfl

theorem parseFile_countProbe (q : ℚ) (ps : List Polygon)
    (hn : ps.length = loopCount (q - 0.4643643)) :
    _parseFile (countProbeCells q ps)
      = .ok { version := elmaVersion, link := 0, integrity := [0, 0, 0, 0], lgr := [], name := [], ground := [], sky := [], polygons := ps, objects := [], pictures := [], top10 := ⟨[], []⟩ } :=
  parseFile_of_parseLevel (parseLevel_countProbe q ps hn)

/-- C4 (amended): decoding reads each count field as a little-endian
double and subtracts the bias constant (0.4643643 for polygons and
objects, 0.2345672 for pictures), but the count actually decoded is the
CEILING of the difference — the value is used directly as the bound of a
`for (i = 0; i < count; i++)` loop — not its nearest-integer rounding;
in particular a buffer whose polygon-count field is exactly the double
3 + 0.4643643 decodes to exactly 3 polygons, the difference being the
exact integer 3. -/
theorem decode_count_bias (q : ℚ) (ps : List Polygon)
    (hn : ps.length = (⌈q - 0.4643643⌉).toNat) :
    ∃ l, _parseFile (countProbeCells q ps) = .ok l ∧ l.polygons = ps :=
  ⟨_, parseFile_countProbe q ps hn, rfl⟩

theorem decode_count_bias_witness :
    ([(⟨false, []⟩ : Polygon), ⟨false, []⟩, ⟨false, []⟩].length
        = (⌈((3 : ℚ) + 0.4643643) - 0.4643643⌉).toNat) ∧
      (∃ l, _parseFile (countProbeCells ((3 : ℚ) + 0.4643643)
          [⟨false, []⟩, ⟨false, []⟩, ⟨false, []⟩]) = .ok l ∧
        l.polygons = [⟨false, []⟩, ⟨false, []⟩, ⟨false, []⟩]) :=
  ⟨by simp, decode_count_bias ((3 : ℚ) + 0.4643643)
    [⟨false, []⟩, ⟨false, []⟩, ⟨false, []⟩] (by simp)⟩

/-- C4 counterexample: the decode count is NOT the nearest-integer
rounding of (double − bias): a buffer whose polygon-count field is the
double 2.6 decodes to 3 polygons (the ceiling of 2.1356357), while
rounding 2.6 − 0.4643643 to the nearest integer gives 2. -/
theorem decode_count_round_counterexample :
    (∃ l, _parseFile (countProbeCells 2.6 [⟨false, []⟩, ⟨false, []⟩, ⟨false, []⟩])
        = .ok l ∧ l.polygons.length = 3) ∧
      round ((2.6 : ℚ) - 0.4643643) = 2 := by
  refine ⟨⟨_, parseFile_countProbe 2.6 [⟨false, []⟩, ⟨false, []⟩, ⟨false, []⟩] ?_, rfl⟩, ?_⟩
  · unfold loopCount
    rw [show ⌈(2.6 : ℚ) - 0.4643643⌉ = 3 by rw [Int.ceil_eq_iff] <;> norm_num]
    rfl
  · rw [round_eq, Int.floor_eq_iff] <;> norm_num

/-- C9: decode rejects out-of-range enum codes with the specific error
for the field and never substitutes a default: any object type code
outside {1, 2, 3, 4} fails with the invalid-object error, any apple
gravity code outside {0, .., 4} fails with the invalid-gravity error,
and any picture clip code outside {0, 1, 2} fails with the invalid-clip
error. -/
theorem decode_enum_rejection :
    (∀ t g a : Int, t ≠ 1 → t ≠ 2 → t ≠ 3 → t ≠ 4 →
      _parseFile (objectProbeCells t g a) = .error .invalidObject) ∧
      (∀ g a : Int, g ≠ 0 → g ≠ 1 → g ≠ 2 → g ≠ 3 → g ≠ 4 →
        _parseFile (objectProbeCells 2 g a) = .error .invalidGravity) ∧
      (∀ c : Int, c ≠ 0 → c ≠ 1 → c ≠ 2 →
        _parseFile (pictureProbeCells c) = .error .invalidClip) := by
  refine ⟨?_, ?_, ?_⟩
  · intro t g a ht1 ht2 ht3 ht4
    apply parseFile_err
    unfold objectProbeCells parseLevel parseLevelAfterTag
    rw [pbind_ok rfl, if_neg (by decide), if_neg (by simp), pbind_ok rfl, pbind_ok rfl,
      pbind_ok rfl, pbind_ok rfl, pbind_ok rfl, pbind_ok rfl, pbind_ok rfl]
    unfold parseLevelSections
    rw [pbind_ok rfl, loopCount_bias_self, pbind_ok rfl, pbind_ok rfl,
      loopCount_natCast_bias]
    have hobj : parseObject (Cell.f64 0 :: Cell.f64 0 :: Cell.i32 t :: Cell.i32 g ::
        Cell.i32 a :: Cell.f64 0.2345672 :: Cell.i32 EOD_MARKER ::
        Cell.raw (cryptTop10 (List.replicate 688 0)) :: [Cell.i32 EOF_MARKER])
        = .error .invalidObject := by
      unfold parseObject
      rw [pbind_ok rfl, pbind_ok rfl, pbind_ok rfl, pbind_ok rfl, pbind_ok rfl,
        if_neg ht1, if_neg ht2, if_neg ht3, if_neg ht4]
      rfl
    have hobjs : parseObjects 1 (Cell.f64 0 :: Cell.f64 0 :: Cell.i32 t :: Cell.i32 g ::
        Cell.i32 a :: Cell.f64 0.2345672 :: Cell.i32 EOD_MARKER ::
        Cell.raw (cryptTop10 (List.replicate 688 0)) :: [Cell.i32 EOF_MARKER])
        = .error .invalidObject := by
      unfold parseObjects
      rw [pbind_err hobj]
    rw [pbind_err hobjs]
  · intro g a hg0 hg1 hg2 hg3 hg4
    apply parseFile_err
    unfold objectProbeCells parseLevel parseLevelAfterTag
    rw [pbind_ok rfl, if_neg (by decide), if_neg (by simp), pbind_ok rfl, pbind_ok rfl,
      pbind_ok rfl, pbind_ok rfl, pbind_ok rfl, pbind_ok rfl, pbind_ok rfl]
    unfold parseLevelSections
    rw [pbind_ok rfl, loopCount_bias_self, pbind_ok rfl, pbind_ok rfl,
      loopCount_natCast_bias]
    have hobj : parseObject (Cell.f64 0 :: Cell.f64 0 :: Cell.i32 2 :: Cell.i32 g ::
        Cell.i32 a :: Cell.f64 0.2345672 :: Cell.i32 EOD_MARKER ::
        Cell.raw (cryptTop10 (List.replicate 688 0)) :: [Cell.i32 EOF_MARKER])
        = .error .invalidGravity := by
      unfold parseObject
      rw [pbind_ok rfl, pbind_ok rfl, pbind_ok rfl, pbind_ok rfl, pbind_ok rfl,
        if_neg (by decide), if_pos rfl, if_neg hg0, if_neg hg1, if_neg hg2,
        if_neg hg3, if_neg hg4]
      rfl
    have hobjs : parseObjects 1 (Cell.f64 0 :: Cell.f64 0 :: Cell.i32 2 :: Cell.i32 g ::
        Cell.i32 a :: Cell.f64 0.2345672 :: Cell.i32 EOD_MARKER ::
        Cell.raw (cryptTop10 (List.replicate 688 0)) :: [Cell.i32 EOF_MARKER])
        = .error .invalidGravity := by
      unfold parseObjects
      rw [pbind_err hobj]
    rw [pbind_err hobjs]
  · intro c hc0 hc1 hc2
    apply parseFile_err
    unfold pictureProbeCells parseLevel parseLevelAfterTag
    rw [pbind_ok rfl, if_neg (by decide), if_neg (by simp), pbind_ok rfl, pbind_ok rfl,
      pbind_ok rfl, pbind_ok rfl, pbind_ok rfl, pbind_ok rfl, pbind_ok rfl]
    unfold parseLevelSections
    rw [pbind_ok rfl, loopCount_bias_self, pbind_ok rfl, pbind_ok rfl,
      loopCount_bias_self, pbind_ok rfl, pbind_ok rfl, loopCount_natCast_bias]
    have hpicfail : parsePicture (Cell.str [] :: Cell.str [] :: Cell.str [] ::
        Cell.f64 0 :: Cell.f64 0 :: Cell.i32 7 :: Cell.i32 c :: Cell.i32 EOD_MARKER ::
        Cell.raw (cryptTop10 (List.replicate 688 0)) :: [Cell.i32 EOF_MARKER])
        = .error .invalidClip := by
      unfold parsePicture
      rw [pbind_ok rfl, pbind_ok rfl, pbind_ok rfl, pbind_ok rfl, pbind_ok rfl,
        pbind_ok rfl, pbind_ok rfl, if_neg hc0, if_neg hc1, if_neg hc2]
      rfl
    have hpics : parsePictures 1 (Cell.str [] :: Cell.str [] :: Cell.str [] ::
        Cell.f64 0 :: Cell.f64 0 :: Cell.i32 7 :: Cell.i32 c :: Cell.i32 EOD_MARKER ::
        Cell.raw (cryptTop10 (List.replicate 688 0)) :: [Cell.i32 EOF_MARKER])
        = .error .invalidClip := by
      unfold parsePictures
      rw [pbind_err hpicfail]
    rw [pbind_err hpics]

theorem decode_enum_rejection_witness :
    ((9 : Int) ≠ 1 ∧ (9 : Int) ≠ 2 ∧ (9 : Int) ≠ 3 ∧ (9 : Int) ≠ 4 ∧
        (7 : Int) ≠ 0 ∧ (7 : Int) ≠ 4 ∧ (7 : Int) ≠ 2) ∧
      _parseFile (objectProbeCells 9 0 0) = .error .invalidObject ∧
      _parseFile (objectProbeCells 2 7 0) = .error .invalidGravity ∧
      _parseFile (pictureProbeCells 7) = .error .invalidClip :=
  ⟨⟨by decide, by decide, by decide, by decide, by decide, by decide, by decide⟩,
    decode_enum_rejection.1 9 0 0 (by decide) (by decide) (by decide) (by decide),
    decode_enum_rejection.2.1 7 0 (by decide) (by decide) (by decide) (by decide)
      (by decide),
    decode_enum_rejection.2.2 7 (by decide) (by decide) (by decide)⟩

theorem update_mutation_counterexample :
    ∃ lm cells, _update unsortedLevel 0 0 0 = .ok (lm, cells) ∧
      lm.top10.single ≠ unsortedLevel.top10.single := by
  refine ⟨{ unsortedLevel with integrity := _calculateIntegrity unsortedLevel 0 0 0, top10 := (_top10ToBuffer unsortedLevel.top10).1 }, encodeCells unsortedLevel (_calculateIntegrity unsortedLevel 0 0 0) (_top10ToBuffer unsortedLevel.top10).2, ?_, ?_⟩
  · unfold _update
    rw [if_neg (by decide)]
  · decide


/-! ## Truncation behaviour (C8) -/

theorem pbind_ok_inv {α β : Type} {g : CellReader α} {h : α → CellReader β} {cs : List Cell}
    {b : β} {rest : List Cell} (hok : pbind g h cs = .ok (b, rest)) :
    ∃ a cs1, g cs = .ok (a, cs1) ∧ h a cs1 = .ok (b, rest) := by
  unfold pbind at hok
  cases hgc : g cs with
  | error e =>
    rw [hgc] at hok
    exact Except.noConfusion hok
  | ok p =>
    obtain ⟨a, cs1⟩ := p
    rw [hgc] at hok
    exact ⟨a, cs1, rfl, hok⟩

theorem parserOk_pret {α : Type} (a : α) : ParserOk (pret a) := by
  intro cs b rest h
  unfold pret at h
  obtain ⟨hb, hc⟩ := Prod.mk.injEq .. ▸ Except.ok.inj h
  refine ⟨[], ?_, ?_, ?_⟩
  · rw [hc]
    rfl
  · intro rest2
    rw [hb]
    rfl
  · intro k hk
    exact absurd hk (by simp)

theorem parserOk_perr {α : Type} (e : DecodeError) : ParserOk (perr e : CellReader α) := by
  intro cs a rest h
  exact Except.noConfusion h

theorem parserOk_of_single {α : Type} (f : CellReader α)
    (hnil : f [] = .error .unexpectedEndOfData)
    (hstep : ∀ c cs1, f (c :: cs1) = match f [c] with
      | .ok (a, _) => .ok (a, cs1)
      | .error e => .error e) :
    ParserOk f := by
  intro cs a rest h
  cases cs with
  | nil =>
    rw [hnil] at h
    exact Except.noConfusion h
  | cons c cs1 =>
    rw [hstep] at h
    cases hc : f [c] with
    | error e =>
      rw [hc] at h
      exact Except.noConfusion h
    | ok p =>
      obtain ⟨a1, r1⟩ := p
      rw [hc] at h
      obtain ⟨ha, hr⟩ := Prod.mk.injEq .. ▸ Except.ok.inj h
      refine ⟨[c], by rw [hr]; rfl, ?_, ?_⟩
      · intro rest2
        rw [List.singleton_append, hstep, hc]
        exact congrArg (fun z => Except.ok (z, rest2)) ha
      · intro k hk
        have hk0 : k = 0 := Nat.lt_one_iff.mp hk
        rw [hk0, List.take_zero, hnil]

theorem parserOk_readString : ParserOk readString :=
  parserOk_of_single readString rfl (by intro c cs1; cases c <;> rfl)

theorem parserOk_readUInt16 : ParserOk readUInt16 :=
  parserOk_of_single readUInt16 rfl (by intro c cs1; cases c <;> rfl)

theorem parserOk_readUInt32 : ParserOk readUInt32 :=
  parserOk_of_single readUInt32 rfl (by intro c cs1; cases c <;> rfl)

theorem parserOk_readInt32 : ParserOk readInt32 :=
  parserOk_of_single readInt32 rfl (by intro c cs1; cases c <;> rfl)

theorem parserOk_readDouble : ParserOk readDouble :=
  parserOk_of_single readDouble rfl (by intro c cs1; cases c <;> rfl)

theorem parserOk_readRaw : ParserOk readRaw :=
  parserOk_of_single readRaw rfl (by intro c cs1; cases c <;> rfl)

theorem parserOk_ite {α : Type} {c : Prop} [Decidable c] {f g : CellReader α}
    (hf : ParserOk f) (hg : ParserOk g) : ParserOk (if c then f else g) := by
  by_cases hc : c
  · rw [if_pos hc]
    exact hf
  · rw [if_neg hc]
    exact hg

theorem parserOk_pbind {α β : Type} {g : CellReader α} {h : α → CellReader β}
    (hg : ParserOk g) (hh : ∀ a, ParserOk (h a)) : ParserOk (pbind g h) := by
  intro cs b rest hok
  obtain ⟨a, cs1, hgc, hhc⟩ := pbind_ok_inv hok
  obtain ⟨xs1, hcs, hg2, hg3⟩ := hg cs a cs1 hgc
  obtain ⟨xs2, hcs1, hh2, hh3⟩ := hh a cs1 b rest hhc
  refine ⟨xs1 ++ xs2, ?_, ?_, ?_⟩
  · rw [hcs, hcs1, List.append_assoc]
  · intro rest2
    rw [List.append_assoc, pbind_ok (hg2 (xs2 ++ rest2)), hh2 rest2]
  · intro k hk
    rw [List.take_append_eq_append_take]
    by_cases hlt : k < xs1.length
    · have hz : k - xs1.length = 0 := by omega
      rw [hz, List.take_zero, List.append_nil, pbind_err (hg3 k hlt)]
    · push_neg at hlt
      have h1 : xs1.take k = xs1 := List.take_of_length_le hlt
      have h2 : k - xs1.length < xs2.length := by
        rw [List.length_append] at hk
        omega
      rw [h1, pbind_ok (hg2 (xs2.take (k - xs1.length))), hh3 (k - xs1.length) h2]

theorem parserOk_parseVertices (n : Nat) : ParserOk (parseVertices n) := by
  induction n with
  | zero => exact parserOk_pret []
  | succ m ih =>
    unfold parseVertices
    exact parserOk_pbind parserOk_readDouble fun x =>
      parserOk_pbind parserOk_readDouble fun y =>
      parserOk_pbind ih fun vs => parserOk_pret _

theorem parserOk_parsePolygons (n : Nat) : ParserOk (parsePolygons n) := by
  induction n with
  | zero => exact parserOk_pret []
  | succ m ih =>
    unfold parsePolygons
    exact parserOk_pbind parserOk_readInt32 fun g =>
      parserOk_pbind parserOk_readInt32 fun c =>
      parserOk_pbind (parserOk_parseVertices c.toNat) fun vs =>
      parserOk_pbind ih fun ps => parserOk_pret _

theorem parserOk_parseObject : ParserOk parseObject := by
  unfold parseObject
  exact parserOk_pbind parserOk_readDouble fun x =>
    parserOk_pbind parserOk_readDouble fun y =>
    parserOk_pbind parserOk_readInt32 fun t =>
    parserOk_pbind parserOk_readInt32 fun g =>
    parserOk_pbind parserOk_readInt32 fun a =>
    parserOk_ite (parserOk_pret _)
      (parserOk_ite
        (parserOk_ite (parserOk_pret _)
          (parserOk_ite (parserOk_pret _)
            (parserOk_ite (parserOk_pret _)
              (parserOk_ite (parserOk_pret _)
                (parserOk_ite (parserOk_pret _) (parserOk_perr _))))))
        (parserOk_ite (parserOk_pret _)
          (parserOk_ite (parserOk_pret _) (parserOk_perr _))))

theorem parserOk_parseObjects (n : Nat) : ParserOk (parseObjects n) := by
  induction n with
  | zero => exact parserOk_pret []
  | succ m ih =>
    unfold parseObjects
    exact parserOk_pbind parserOk_parseObject fun o =>
      parserOk_pbind ih fun os => parserOk_pret _

theorem parserOk_parsePicture : ParserOk parsePicture := by
  unfold parsePicture
  exact parserOk_pbind parserOk_readString fun n =>
    parserOk_pbind parserOk_readString fun t =>
    parserOk_pbind parserOk_readString fun m =>
    parserOk_pbind parserOk_readDouble fun x =>
    parserOk_pbind parserOk_readDouble fun y =>
    parserOk_pbind parserOk_readInt32 fun d =>
    parserOk_pbind parserOk_readInt32 fun c =>
    parserOk_ite (parserOk_pret _)
      (parserOk_ite (parserOk_pret _)
        (parserOk_ite (parserOk_pret _) (parserOk_perr _)))

theorem parserOk_parsePictures (n : Nat) : ParserOk (parsePictures n) := by
  induction n with
  | zero => exact parserOk_pret []
  | succ m ih =>
    unfold parsePictures
    exact parserOk_pbind parserOk_parsePicture fun p =>
      parserOk_pbind ih fun ps => parserOk_pret _

theorem parserOk_parseDoubles (n : Nat) : ParserOk (parseDoubles n) := by
  induction n with
  | zero => exact parserOk_pret []
  | succ m ih =>
    unfold parseDoubles
    exact parserOk_pbind parserOk_readDouble fun q =>
      parserOk_pbind ih fun qs => parserOk_pret _

theorem parserOk_parseLevelFinish (link : Nat) (integrity : List ℚ)
    (name lgr ground sky : List Nat) (polygons : List Polygon)
    (objects : List LevObject) (pictures : List Picture) :
    ParserOk (parseLevelFinish link integrity name lgr ground sky polygons objects pictures) := by
  unfold parseLevelFinish
  exact parserOk_pbind parserOk_readInt32 fun eod =>
    parserOk_ite (parserOk_perr _)
      (parserOk_pbind parserOk_readRaw fun tb =>
        parserOk_pbind parserOk_readInt32 fun eof =>
        parserOk_ite (parserOk_perr _) (parserOk_pret _))

theorem parserOk_parseLevelSections (link : Nat) (integrity : List ℚ)
    (name lgr ground sky : List Nat) :
    ParserOk (parseLevelSections link integrity name lgr ground sky) := by
  unfold parseLevelSections
  exact parserOk_pbind parserOk_readDouble fun pc =>
    parserOk_pbind (parserOk_parsePolygons _) fun ps =>
    parserOk_pbind parserOk_readDouble fun oc =>
    parserOk_pbind (parserOk_parseObjects _) fun os =>
    parserOk_pbind parserOk_readDouble fun picC =>
    parserOk_pbind (parserOk_parsePictures _) fun pics =>
    parserOk_parseLevelFinish _ _ _ _ _ _ _ _ _

theorem parserOk_parseLevelAfterTag : ParserOk parseLevelAfterTag := by
  unfold parseLevelAfterTag
  exact parserOk_pbind parserOk_readUInt16 fun g =>
    parserOk_pbind parserOk_readUInt32 fun link =>
    parserOk_pbind (parserOk_parseDoubles 4) fun integ =>
    parserOk_pbind parserOk_readString fun n =>
    parserOk_pbind parserOk_readString fun l =>
    parserOk_pbind parserOk_readString fun gr =>
    parserOk_pbind parserOk_readString fun sk =>
    parserOk_parseLevelSections _ _ _ _ _ _

theorem parseLevel_ok_inv {cs : List Cell} {l : Level} {rest : List Cell}
    (hok : parseLevel cs = .ok (l, rest)) :
    ∃ cs1, cs = Cell.str elmaTag :: cs1 ∧ parseLevelAfterTag cs1 = .ok (l, rest) := by
  unfold parseLevel at hok
  obtain ⟨v, cs1, hv, hrest⟩ := pbind_ok_inv hok
  by_cases h1 : v = acrossTag
  · rw [if_pos h1] at hrest
    exact Except.noConfusion hrest
  rw [if_neg h1] at hrest
  by_cases h2 : v ≠ elmaTag
  · rw [if_pos h2] at hrest
    exact Except.noConfusion hrest
  rw [if_neg h2] at hrest
  have hve : v = elmaTag := not_not.mp h2
  subst hve
  cases cs with
  | nil =>
    obtain ⟨ha, -⟩ := Prod.mk.injEq .. ▸ Except.ok.inj hv
    exact absurd ha (by decide)
  | cons c t =>
    cases c with
    | str bs =>
      obtain ⟨ha, hb⟩ := Prod.mk.injEq .. ▸ Except.ok.inj hv
      rw [ha, hb]
      exact ⟨cs1, rfl, hrest⟩
    | u16 w => exact Except.noConfusion hv
    | u32 w => exact Except.noConfusion hv
    | i32 w => exact Except.noConfusion hv
    | f64 q => exact Except.noConfusion hv
    | raw bs => exact Except.noConfusion hv

/-- C8 (amended): truncated input is never silently accepted: whenever
decoding succeeds on a buffer, consuming a definite prefix of it, every
proper prefix of that consumed input makes decoding fail — never a
partially populated success result — but not always with the same error:
a truncation that leaves less than the 5-byte version tag fails with the
not-valid-level error, because the source's tag read
`buffer.toString('ascii', 0, 5)` clamps to the buffer's end instead of
throwing and the short tag falls through the version switch to
`Not valid Elma level.`; every truncation after the tag fails with the
unexpected-end-of-data error, the error surfaced when a `Buffer` read
would run past the end. -/
theorem truncated_decode_fails (cs : List Cell) (l : Level) (rest : List Cell)
    (hok : parseLevel cs = .ok (l, rest)) :
    _parseFile (cs.take 0) = .error .notValidLevel ∧
      ∀ k, 1 ≤ k → k < cs.length - rest.length →
        _parseFile (cs.take k) = .error .unexpectedEndOfData := by
  obtain ⟨cs1, hcs, hafter⟩ := parseLevel_ok_inv hok
  obtain ⟨xs, hcs1, _hrep, htr⟩ := parserOk_parseLevelAfterTag cs1 l rest hafter
  constructor
  · rw [List.take_zero]
    rfl
  · intro k hk1 hk
    obtain ⟨k1, rfl⟩ : ∃ k1, k = k1 + 1 := ⟨k - 1, by omega⟩
    have hlen : cs.length = xs.length + rest.length + 1 := by
      rw [hcs, hcs1, List.length_cons, List.length_append]
    have hk2 : k1 < xs.length := by omega
    have htake : cs.take (k1 + 1) = Cell.str elmaTag :: xs.take k1 := by
      rw [hcs, List.take_succ_cons, hcs1, List.take_append_eq_append_take]
      have hz : k1 - xs.length = 0 := by omega
      rw [hz, List.take_zero, List.append_nil]
    rw [htake]
    apply parseFile_err
    unfold parseLevel
    rw [pbind_ok rfl, if_neg (by decide), if_neg (by simp)]
    exact htr k1 hk2

theorem truncated_decode_fails_witness :
    parseLevel (countProbeCells 0.4643643 [])
        = .ok ({ version := elmaVersion, link := 0, integrity := [0, 0, 0, 0], lgr := [], name := [], ground := [], sky := [], polygons := [], objects := [], pictures := [], top10 := ⟨[], []⟩ }, []) ∧
      _parseFile ((countProbeCells 0.4643643 []).take 0) = .error .notValidLevel ∧
      (1 : Nat) ≤ 3 ∧
      (3 : Nat) < (countProbeCells 0.4643643 []).length - ([] : List Cell).length ∧
      _parseFile ((countProbeCells 0.4643643 []).take 3)
        = .error .unexpectedEndOfData := by
  have hok := parseLevel_countProbe 0.4643643 [] (loopCount_bias_self 0.4643643).symm
  have h := truncated_decode_fails (countProbeCells 0.4643643 []) _ [] hok
  exact ⟨hok, h.1, by decide, by decide, h.2 3 (by decide) (by decide)⟩

/-- C8 counterexample: a buffer shorter than the 5-byte version tag is not
rejected with the unexpected-end-of-data error the claim names for every
short input: the clamping tag read turns it into a failed version switch,
so the empty input fails with the not-valid-level error
(`Not valid Elma level.`) instead. -/
theorem truncated_tag_counterexample :
    _parseFile [] = .error .notValidLevel ∧
      DecodeError.notValidLevel ≠ DecodeError.unexpectedEndOfData :=
  ⟨rfl, fun h => DecodeError.noConfusion h⟩

end Elma
